import Mathlib

/-!
# ConversationModel (src/core/ConversationModel.cpp)

A shallow embedding of the per-contact conversation message store and the
properties of its insertion, delivery-status and bookkeeping operations.

Conventions of the embedding

* `QList<MessageData>` is a `List MessageData`; index 0 is the head.
* `quint16` identifiers are natural numbers; the code only compares them for
  equality and never does arithmetic on them.
* `QDateTime` values are integers (milliseconds since the epoch).
* A `ContactUser *` is `Option Nat`: `none` is the null pointer, `some p` the
  contact object `p`.
* Calls into the transport and the clock are inputs of the operation that makes
  them; what an operation hands to the transport is part of its result.
-/

namespace ConversationModel

/-- Modelled from the spec: the `MessageStatus` enumeration is declared in
`ConversationModel.h`, which is not part of the sources at hand; the spec lists
the four values `Sending | Delivered | Error | Received`. -/
inductive MessageStatus where
  | Received
  | Sending
  | Delivered
  | Error
  deriving DecidableEq, Repr

/-- Modelled from the spec: `MessageData` is declared in `ConversationModel.h`;
the field order is the one of the aggregate initialisers
`{ text, time, identifier, status }` in `sendMessage` and `receiveMessage`. -/
structure MessageData where
  text : String
  time : Int
  identifier : Nat
  status : MessageStatus
  deriving DecidableEq, Repr

/-- Modelled from the spec: `ChatMessageData` is declared with the protocol
code; `receiveMessage` reads the fields `text`, `when`, `messageID` and
`priorMessageID`. -/
structure ChatMessageData where
  text : String
  when : Int
  messageID : Nat
  priorMessageID : Nat
  deriving DecidableEq, Repr

/-- What `messageReply` reads from the finished `ChatMessageCommand`:
`command->identifier()` and `Protocol::isSuccess(command->finalReplyState())`. -/
structure ChatMessageCommand where
  identifier : Nat
  isSuccess : Bool
  deriving DecidableEq, Repr

/-- The arguments of `command->send(m_contact->conn(), now, text, lastReceivedId)`. -/
structure SendRequest where
  contact : Nat
  when : Int
  text : String
  lastReceived : Nat
  deriving DecidableEq, Repr

/-- Modelled from the spec: the member variables of `ConversationModel`
(declared in `ConversationModel.h`). `m_unreadCount` is the spec's
non-negative integer `unreadCount`. -/
structure Store where
  messages : List MessageData
  lastReceivedId : Nat
  m_unreadCount : Nat
  m_contact : Option Nat
  deriving DecidableEq, Repr

/-- The constructor: no contact, `lastReceivedId(0)`, `m_unreadCount(0)`, empty list. -/
def Store.init : Store :=
  { messages := [], lastReceivedId := 0, m_unreadCount := 0, m_contact := none }

/-- `QChar::isSpace`: the ASCII characters tab, line feed, vertical tab, form
feed, carriage return and space, then U+0085, U+00A0 and the characters of the
Unicode separator categories Zs, Zl and Zp. -/
def QChar.isSpace (c : Char) : Bool :=
  let u := c.toNat
  u == 0x20 || (0x09 ≤ u && u ≤ 0x0d) || u == 0x85 || u == 0xa0 || u == 0x1680 ||
    (0x2000 ≤ u && u ≤ 0x200a) || u == 0x2028 || u == 0x2029 || u == 0x202f ||
    u == 0x205f || u == 0x3000

/-- `QString::trimmed`: whitespace (`QChar::isSpace`) removed from the start and the end. -/
def QString.trimmed (s : String) : String :=
  String.mk ((s.data.dropWhile QChar.isSpace).reverse.dropWhile QChar.isSpace).reverse

/-- `QList::insert(i, value)` for `0 ≤ i`: the value is put before the element at
index `i`, and appended when `i` is the size of the list or more. -/
def QList.insert {α : Type} (l : List α) (i : Nat) (value : α) : List α :=
  l.take i ++ value :: l.drop i

/-- `setContact`: nothing happens for the contact already set; otherwise the
message list is cleared and the new contact recorded. -/
def setContact (m : Store) (contact : Option Nat) : Store :=
  if contact = m.m_contact then m
  else { m with messages := [], m_contact := contact }

/-- `sendMessage(text)`. `sendTime` and `now` are the two readings of
`QDateTime::currentDateTime()`, `identifier` is `command->identifier()` after
the command was sent. The result is `none` when a non-empty text is sent while
`m_contact` is the null pointer (`m_contact->conn()` is then undefined);
otherwise it is the new state and the request handed to the transport, if any. -/
def sendMessage (m : Store) (text : String) (sendTime now : Int) (identifier : Nat) :
    Option (Store × Option SendRequest) :=
  if text.length = 0 then some (m, none)
  else
    match m.m_contact with
    | none => none
    | some contact =>
      let request : SendRequest :=
        { contact := contact, when := sendTime, text := text, lastReceived := m.lastReceivedId }
      let message : MessageData :=
        { text := text, time := now, identifier := identifier, status := .Sending }
      some ({ m with messages := message :: m.messages }, some request)

/-- The loop of `receiveMessage`, entered at index `i` with `rest` the messages
from index `i` on: the result is the value `row` has when the loop is left. -/
def receiveMessage.scan (priorMessageID : Nat) : List MessageData → Nat → Nat
  | [], _ => 0
  | msg :: rest, i =>
    if i < 5 then
      if msg.status = .Received ∨ msg.identifier = priorMessageID then i
      else receiveMessage.scan priorMessageID rest (i + 1)
    else 0

/-- The row `receiveMessage` computes before it inserts. -/
def receiveMessage.row (messages : List MessageData) (priorMessageID : Nat) : Nat :=
  if priorMessageID ≠ 0 then receiveMessage.scan priorMessageID messages 0 else 0

/-- `receiveMessage(data)`. -/
def receiveMessage (m : Store) (data : ChatMessageData) : Store :=
  let row := receiveMessage.row m.messages data.priorMessageID
  let message : MessageData :=
    { text := QString.trimmed data.text, time := data.when,
      identifier := data.messageID, status := .Received }
  { m with
    lastReceivedId := data.messageID
    messages := QList.insert m.messages row message
    m_unreadCount := m.m_unreadCount + 1 }

/-- The loop of `indexOfIdentifier`, entered at index `i` with `rest` the
messages from index `i` on. -/
def indexOfIdentifier.loop (identifier : Nat) (isOutgoing : Bool) : List MessageData → Nat → Int
  | [], _ => -1
  | msg :: rest, i =>
    if msg.identifier = identifier ∧ (decide (msg.status ≠ .Received)) = isOutgoing then (i : Int)
    else indexOfIdentifier.loop identifier isOutgoing rest (i + 1)

/-- `indexOfIdentifier(identifier, isOutgoing)`: the first index whose message
has that identifier and direction, or `-1`. -/
def indexOfIdentifier (m : Store) (identifier : Nat) (isOutgoing : Bool) : Int :=
  indexOfIdentifier.loop identifier isOutgoing m.messages 0

/-- `messageReply()`. `command` is `qobject_cast<ChatMessageCommand*>(sender())`,
`none` when the sender is no chat command. -/
def messageReply (m : Store) (command : Option ChatMessageCommand) : Store :=
  match command with
  | none => m
  | some command =>
    let row := indexOfIdentifier m command.identifier true
    if row < 0 then m
    else
      { m with
        messages := m.messages.modify
          (fun data => { data with status := if command.isSuccess then .Delivered else .Error })
          row.toNat }

/-- `resetUnreadCount()`. -/
def resetUnreadCount (m : Store) : Store :=
  if m.m_unreadCount = 0 then m else { m with m_unreadCount := 0 }

/-- `clear()`. -/
def clear (m : Store) : Store :=
  if m.messages.isEmpty then m
  else resetUnreadCount { m with messages := [] }

/-- The message `receiveMessage(data)` creates. -/
def receivedMessage (data : ChatMessageData) : MessageData :=
  { text := QString.trimmed data.text, time := data.when,
    identifier := data.messageID, status := .Received }

/-- The anchor test of the reconciliation: index `i` lies in the first five
entries and its message is a received one or carries `priorMessageID`. -/
def IsAnchor (messages : List MessageData) (priorMessageID : Nat) (i : Nat) : Prop :=
  i < 5 ∧ ∃ x, messages[i]? = some x ∧ (x.status = .Received ∨ x.identifier = priorMessageID)

/-! ## Traces of sends and completion notifications -/

/-- One event of the outgoing traffic: a `sendMessage` call with the clock
readings and the identifier the transport assigned, or a completion
notification for an identifier. -/
inductive Event where
  | send (text : String) (sendTime now : Int) (identifier : Nat)
  | completion (identifier : Nat) (isSuccess : Bool)
  deriving DecidableEq, Repr

/-- The store after one event, `none` when `sendMessage` is undefined. -/
def step (m : Store) : Event → Option Store
  | .send text sendTime now identifier =>
    (sendMessage m text sendTime now identifier).map Prod.fst
  | .completion identifier isSuccess =>
    some (messageReply m (some { identifier := identifier, isSuccess := isSuccess }))

/-- The store after the events of a trace, oldest event first. -/
def run (m : Store) : List Event → Option Store
  | [] => some m
  | e :: later => (step m e).bind (fun m2 => run m2 later)

/-- The number of messages with status `Sending`. -/
def sendingCount (m : Store) : Nat :=
  m.messages.countP (fun x => x.status = .Sending)

/-- The event is a completion notification for the identifier `c`. -/
def Event.resolves (c : Nat) : Event → Bool
  | .send _ _ _ _ => false
  | .completion identifier _ => identifier = c

/-- The event is a send of the empty text. -/
def Event.sendsEmpty : Event → Bool
  | .send text _ _ _ => text = ""
  | .completion _ _ => false

/-- The number of sends of the trace that no later completion notification of
the trace resolves, that is no later notification carries their identifier. -/
def unresolvedSends : List Event → Nat
  | [] => 0
  | .send _ _ _ c :: later =>
    (if later.any (Event.resolves c) then 0 else 1) + unresolvedSends later
  | .completion _ _ :: later => unresolvedSends later

/-- The transport never assigns an identifier that a send before it carries and
no completion notification has resolved yet: `pending` holds the identifiers of
the unresolved sends so far. -/
def freshIdsFrom (pending : List Nat) : List Event → Bool
  | [] => true
  | .send _ _ _ c :: later => !pending.contains c && freshIdsFrom (c :: pending) later
  | .completion c _ :: later => freshIdsFrom (pending.filter (fun d => d ≠ c)) later

/-- The identifiers of the unresolved sends after the trace, newest first. -/
def pendingAfter (pending : List Nat) : List Event → List Nat
  | [] => pending
  | .send _ _ _ c :: later => pendingAfter (c :: pending) later
  | .completion c _ :: later => pendingAfter (pending.filter (fun d => d ≠ c)) later

/-- The identifiers of the messages with status `Sending`, newest first. -/
def sendingIds (messages : List MessageData) : List Nat :=
  (messages.filter (fun x => x.status = .Sending)).map (fun x => x.identifier)

/-- No message with status `Sending` stands behind an outgoing message with
the same identifier. -/
def SendingFirst (messages : List MessageData) : Prop :=
  messages.Pairwise
    (fun a b => a.status ≠ .Received → b.status = .Sending → b.identifier ≠ a.identifier)

/-! ## The data roles -/

/-- The roles of `roleNames`, and any other role number. -/
inductive Role where
  | DisplayRole
  | TimestampRole
  | IsOutgoingRole
  | StatusRole
  | SectionRole
  | TimespanRole
  | other
  deriving DecidableEq, Repr

/-- The values `data` returns: the invalid `QVariant()`, a string, a time, a
boolean, a message status or an integer. -/
inductive QVariant where
  | invalid
  | string (s : String)
  | dateTime (t : Int)
  | bool (b : Bool)
  | status (s : MessageStatus)
  | int (n : Int)
  deriving DecidableEq, Repr

/-- The loop of the section role, entered at index `i` with `rest` the messages
from index `i` on: `true` when the loop returns the empty string, that is when a
message at an index up to `row` is received or delivered. -/
def data.sectionLoop (row : Nat) : List MessageData → Nat → Bool
  | [], _ => false
  | msg :: rest, i =>
    if i ≤ row then
      if msg.status = .Received ∨ msg.status = .Delivered then true
      else data.sectionLoop row rest (i + 1)
    else false

/-- The first test of the section role: `row` is not the last row and the
message `next` at `row + 1` is neither received nor delivered. -/
def data.nextUnacknowledged (messages : List MessageData) (row : Nat) : Bool :=
  match messages[row + 1]? with
  | some next => decide (next.status ≠ .Received ∧ next.status ≠ .Delivered)
  | none => false

/-- `data(index, role)`. `index` is `none` for an invalid model index and the
row otherwise; `online` is the value of `m_contact->status() == ContactUser::Online`.
`m.messages[row]?` is `none` exactly when `index.row() >= messages.size()`, and
`m.messages[row + 1]?` is a message exactly when `index.row() < messages.size() - 1`.
The result is `none` when the section role is asked while `m_contact` is the
null pointer (`m_contact->status()` is then undefined). -/
def data (m : Store) (online : Bool) (index : Option Nat) (role : Role) : Option QVariant :=
  match index with
  | none => some .invalid
  | some row =>
    match m.messages[row]? with
    | none => some .invalid
    | some message =>
      match role with
      | .DisplayRole => some (.string message.text)
      | .TimestampRole => some (.dateTime message.time)
      | .IsOutgoingRole => some (.bool (decide (message.status ≠ MessageStatus.Received)))
      | .StatusRole => some (.status message.status)
      | .TimespanRole =>
        match m.messages[row + 1]? with
        | some next => some (.int (message.time - next.time))
        | none => some (.int (-1))
      | .SectionRole =>
        match m.m_contact with
        | none => none
        | some _ =>
          if online then some (.string "")
          else
            if data.nextUnacknowledged m.messages row then some (.string "")
            else if data.sectionLoop row m.messages 0 then some (.string "")
            else some (.string "offline")
      | .other => some .invalid

/-- The message is a received or a delivered one. -/
def isAcknowledged (x : MessageData) : Bool :=
  decide (x.status = .Received ∨ x.status = .Delivered)

/-- The section rule in the words of the specification: the peer is not online,
no message at an index up to `r` is received or delivered, and `r` is not the
newest-but-one row or the adjacent newer message at `r - 1` is not received or
delivered. -/
def specOfflineRule (messages : List MessageData) (online : Bool) (r : Nat) : Bool :=
  !online && (messages.take (r + 1)).all (fun x => !isAcknowledged x) &&
    (decide (r ≠ 1) || (match messages[r - 1]? with
      | some newer => !isAcknowledged newer
      | none => true))

/-! ## Sequences of operations -/

/-- One call of an operation of the store, with the inputs it reads. -/
inductive Op where
  | setContact (contact : Option Nat)
  | sendMessage (text : String) (sendTime now : Int) (identifier : Nat)
  | receiveMessage (data : ChatMessageData)
  | messageReply (command : Option ChatMessageCommand)
  | clear
  | resetUnreadCount
  deriving DecidableEq, Repr

/-- The store after one operation, `none` when `sendMessage` is undefined. -/
def applyOp (m : Store) : Op → Option Store
  | .setContact contact => some (setContact m contact)
  | .sendMessage text sendTime now identifier =>
    (sendMessage m text sendTime now identifier).map Prod.fst
  | .receiveMessage data => some (receiveMessage m data)
  | .messageReply command => some (messageReply m command)
  | .clear => some (clear m)
  | .resetUnreadCount => some (resetUnreadCount m)

/-- The store after a sequence of operations, first operation first. -/
def runOps (m : Store) : List Op → Option Store
  | [] => some m
  | op :: later => (applyOp m op).bind (fun m2 => runOps m2 later)

/-- The store after a sequence of operations together with a record kept beside
it: `track m g op` is the record after `op` is applied to the store `m` with
record `g`. The record has no influence on the store. -/
def runTracked {γ : Type} (track : Store → γ → Op → γ) (m : Store) (g : γ) :
    List Op → Option (Store × γ)
  | [] => some (m, g)
  | op :: later =>
    (applyOp m op).bind (fun m2 => runTracked track m2 (track m g op) later)

/-- The record of origins: for every position of the sequence, whether the
message there was created by `receiveMessage`. A send of a non-empty text puts
`false` in front, a receive puts `true` at the row of the insertion, a contact
change and a clear of a non-empty sequence drop everything. -/
def trackOrigins (m : Store) (origins : List Bool) : Op → List Bool
  | .setContact contact => if contact = m.m_contact then origins else []
  | .sendMessage text _ _ _ => if text.length = 0 then origins else false :: origins
  | .receiveMessage data =>
    QList.insert origins (receiveMessage.row m.messages data.priorMessageID) true
  | .messageReply _ => origins
  | .clear => if m.messages.isEmpty then origins else []
  | .resetUnreadCount => origins

/-- The record of arrivals: the messages created by `receiveMessage` since the
last contact change or clear, latest arrival first. -/
def trackArrivals (m : Store) (arrivals : List MessageData) : Op → List MessageData
  | .setContact contact => if contact = m.m_contact then arrivals else []
  | .sendMessage _ _ _ _ => arrivals
  | .receiveMessage data => receivedMessage data :: arrivals
  | .messageReply _ => arrivals
  | .clear => if m.messages.isEmpty then arrivals else []
  | .resetUnreadCount => arrivals

/-- The received messages of the sequence, in sequence order. -/
def receivedOf (m : Store) : List MessageData :=
  m.messages.filter (fun x => x.status = .Received)

/-- The operation is not `setContact`. -/
def Op.keepsContact : Op → Bool
  | .setContact _ => false
  | _ => true

/-- The length of the run of messages at the head of the sequence that are
neither received nor delivered. -/
def headRun (messages : List MessageData) : Nat :=
  (messages.takeWhile (fun x => !isAcknowledged x)).length

/-! ## The scan of `receiveMessage` -/

theorem scan_found (p : Nat) (rest : List MessageData) (i j : Nat) (x : MessageData)
    (hj : i + j < 5) (hx : rest[j]? = some x)
    (hc : x.status = .Received ∨ x.identifier = p)
    (hmin : ∀ k, k < j → ∀ y, rest[k]? = some y → ¬ (y.status = .Received ∨ y.identifier = p)) :
    receiveMessage.scan p rest i = i + j := by
  induction rest generalizing i j with
  | nil => simp at hx
  | cons msg rest ih =>
    have hi : i < 5 := by omega
    cases j with
    | zero =>
      simp at hx
      subst hx
      simp [receiveMessage.scan, hi, hc]
    | succ j =>
      have h0 := hmin 0 (by omega) msg (by simp)
      have hrec := ih (i + 1) j (by omega) (by simpa using hx)
        (fun k hk y hy => hmin (k + 1) (by omega) y (by simpa using hy))
      simp only [receiveMessage.scan, hi, if_true, h0, if_false, hrec]
      omega

theorem scan_none (p : Nat) (rest : List MessageData) (i : Nat)
    (hno : ∀ j y, i + j < 5 → rest[j]? = some y → ¬ (y.status = .Received ∨ y.identifier = p)) :
    receiveMessage.scan p rest i = 0 := by
  induction rest generalizing i with
  | nil => simp [receiveMessage.scan]
  | cons msg rest ih =>
    by_cases hi : i < 5
    · have h0 := hno 0 msg (by omega) (by simp)
      have hrec := ih (i + 1) (fun j y hj hy => hno (j + 1) y (by omega) (by simpa using hy))
      simp only [receiveMessage.scan, hi, if_true, h0, if_false, hrec]
    · simp [receiveMessage.scan, hi]

theorem mem_take_of_getElem? {α : Type} {l : List α} {j k : Nat} {y : α}
    (hj : j < k) (hy : l[j]? = some y) : y ∈ l.take k :=
  List.mem_iff_getElem?.2 ⟨j, by rw [List.getElem?_take_of_lt hj, hy]⟩

theorem receiveMessage_messages (m : Store) (data : ChatMessageData) :
    (receiveMessage m data).messages =
      m.messages.take (receiveMessage.row m.messages data.priorMessageID) ++
        receivedMessage data :: m.messages.drop (receiveMessage.row m.messages data.priorMessageID) :=
  rfl

theorem row_of_anchor (messages : List MessageData) (p r : Nat) (hp : p ≠ 0)
    (hr : IsAnchor messages p r) (hmin : ∀ j, j < r → ¬ IsAnchor messages p j) :
    receiveMessage.row messages p = r := by
  obtain ⟨hr5, x, hx, hc⟩ := hr
  have h := scan_found p messages 0 r x (by omega) hx hc
    (fun k hk y hy hcy => hmin k hk ⟨by omega, y, hy, hcy⟩)
  simp only [receiveMessage.row, hp, ne_eq, not_false_eq_true, if_true, h]
  omega

theorem row_of_no_anchor (messages : List MessageData) (p : Nat)
    (hno : ∀ i, ¬ IsAnchor messages p i) : receiveMessage.row messages p = 0 := by
  unfold receiveMessage.row
  split
  · exact scan_none p messages 0 (fun j y hj hy hcy => hno j ⟨by omega, y, hy, hcy⟩)
  · rfl

theorem row_of_zero_prior (messages : List MessageData) :
    receiveMessage.row messages 0 = 0 := by
  simp [receiveMessage.row]

/-! ## The lookup of `messageReply` -/

theorem loop_cases (c : Nat) (rest : List MessageData) (i : Nat) :
    (indexOfIdentifier.loop c true rest i = -1 ∧
        ∀ y ∈ rest, ¬ (y.identifier = c ∧ y.status ≠ .Received)) ∨
      ∃ k x, indexOfIdentifier.loop c true rest i = ((i + k : Nat) : Int) ∧
        rest[k]? = some x ∧ x.identifier = c ∧ x.status ≠ .Received ∧
        ∀ y ∈ rest.take k, ¬ (y.identifier = c ∧ y.status ≠ .Received) := by
  induction rest generalizing i with
  | nil => left; simp [indexOfIdentifier.loop]
  | cons msg rest ih =>
    by_cases hm : msg.identifier = c ∧ msg.status ≠ .Received
    · right
      refine ⟨0, msg, ?_, by simp, hm.1, hm.2, by simp⟩
      simp [indexOfIdentifier.loop, hm.1, hm.2]
    · have hstep : indexOfIdentifier.loop c true (msg :: rest) i =
          indexOfIdentifier.loop c true rest (i + 1) := by
        have hm2 : ¬ (msg.identifier = c ∧ decide (msg.status ≠ .Received) = true) := by
          simpa using hm
        simp only [indexOfIdentifier.loop, hm2, if_false]
      rcases ih (i + 1) with ⟨h1, h2⟩ | ⟨k, x, h1, h2, h3, h4, h5⟩
      · left
        refine ⟨by rw [hstep, h1], ?_⟩
        intro y hy
        rcases List.mem_cons.1 hy with rfl | hy
        · exact hm
        · exact h2 y hy
      · right
        refine ⟨k + 1, x, ?_, by simpa using h2, h3, h4, ?_⟩
        · rw [hstep, h1]
          congr 1
          omega
        · intro y hy
          rw [List.take_succ_cons] at hy
          rcases List.mem_cons.1 hy with rfl | hy
          · exact hm
          · exact h5 y hy

theorem first_match_unique (c : Nat) (l : List MessageData) (k k2 : Nat) (x x2 : MessageData)
    (hk : l[k]? = some x) (hx : x.identifier = c ∧ x.status ≠ .Received)
    (hmin : ∀ y ∈ l.take k, ¬ (y.identifier = c ∧ y.status ≠ .Received))
    (hk2 : l[k2]? = some x2) (hx2 : x2.identifier = c ∧ x2.status ≠ .Received)
    (hmin2 : ∀ y ∈ l.take k2, ¬ (y.identifier = c ∧ y.status ≠ .Received)) : k = k2 := by
  rcases Nat.lt_trichotomy k k2 with h | h | h
  · exact absurd hx (hmin2 x (mem_take_of_getElem? h hk))
  · exact h
  · exact absurd hx2 (hmin x2 (mem_take_of_getElem? h hk2))

theorem modify_eq_set_of_getElem? {α : Type} (f : α → α) (l : List α) (k : Nat) (x : α)
    (hk : l[k]? = some x) : List.modify f k l = l.set k (f x) := by
  rw [List.modify_eq_set_get?]
  simp [hk]

/-- The lookup finds no outgoing message with the identifier: the store is kept. -/
theorem messageReply_of_no_match (m : Store) (cmd : ChatMessageCommand)
    (hno : ∀ y ∈ m.messages, ¬ (y.identifier = cmd.identifier ∧ y.status ≠ .Received)) :
    messageReply m (some cmd) = m := by
  rcases loop_cases cmd.identifier m.messages 0 with ⟨h1, _⟩ | ⟨k, x, _, h2, h3, h4, _⟩
  · simp [messageReply, indexOfIdentifier, h1]
  · exact absurd ⟨h3, h4⟩ (hno x (List.mem_iff_getElem?.2 ⟨k, h2⟩))

/-- The lookup finds the first outgoing message with the identifier at index `k`:
the status of that message is overwritten. -/
theorem messageReply_of_first_match (m : Store) (cmd : ChatMessageCommand) (k : Nat)
    (x : MessageData) (hk : m.messages[k]? = some x)
    (hx : x.identifier = cmd.identifier ∧ x.status ≠ .Received)
    (hmin : ∀ y ∈ m.messages.take k, ¬ (y.identifier = cmd.identifier ∧ y.status ≠ .Received)) :
    messageReply m (some cmd) =
      { m with
        messages := m.messages.set k
          { x with status := if cmd.isSuccess then .Delivered else .Error } } := by
  rcases loop_cases cmd.identifier m.messages 0 with ⟨_, h2⟩ | ⟨k2, x2, h1, h2, h3, h4, h5⟩
  · exact absurd hx (h2 x (List.mem_iff_getElem?.2 ⟨k, hk⟩))
  · have hkk : k2 = k := first_match_unique _ _ _ _ _ _ h2 ⟨h3, h4⟩ h5 hk hx hmin
    subst hkk
    have hxx : x2 = x := by rw [h2] at hk; exact Option.some.inj hk
    subst hxx
    have hnn : ¬ (((0 + k2 : Nat) : Int) < 0) := by omega
    simp only [messageReply, indexOfIdentifier, h1, hnn, if_false, Int.toNat_ofNat]
    rw [modify_eq_set_of_getElem? _ _ _ _ (by simpa using h2)]
    simp

/-- The two outcomes of a completion notification: no outgoing message carries
the identifier and the store is kept, or the first such message gets the status
of the notification. -/
theorem messageReply_cases (m : Store) (cmd : ChatMessageCommand) :
    (messageReply m (some cmd) = m ∧
        ∀ y ∈ m.messages, ¬ (y.identifier = cmd.identifier ∧ y.status ≠ .Received)) ∨
      ∃ k x, m.messages[k]? = some x ∧
        (x.identifier = cmd.identifier ∧ x.status ≠ .Received) ∧
        (∀ y ∈ m.messages.take k, ¬ (y.identifier = cmd.identifier ∧ y.status ≠ .Received)) ∧
        messageReply m (some cmd) =
          { m with
            messages := m.messages.set k
              { x with status := if cmd.isSuccess then .Delivered else .Error } } := by
  rcases loop_cases cmd.identifier m.messages 0 with ⟨_, h2⟩ | ⟨k, x, _, h2, h3, h4, h5⟩
  · exact Or.inl ⟨messageReply_of_no_match m cmd h2, h2⟩
  · exact Or.inr ⟨k, x, h2, ⟨h3, h4⟩, h5, messageReply_of_first_match m cmd k x h2 ⟨h3, h4⟩ h5⟩

/-! ## Insertion and sending -/

theorem getElem?_insert {α : Type} (l : List α) (r i : Nat) (v x : α) (h : l[i]? = some x) :
    (QList.insert l r v)[if i < r then i else i + 1]? = some x := by
  have hlt : i < l.length := (List.getElem?_eq_some.1 h).1
  unfold QList.insert
  split
  · next hir =>
    rw [List.getElem?_append_left (by simp; omega), List.getElem?_take_of_lt hir, h]
  · next hir =>
    have hlen : (l.take r).length = r := by simp; omega
    rw [List.getElem?_append_right (by omega), hlen]
    have h1 : i + 1 - r = (i - r) + 1 := by omega
    rw [h1, List.getElem?_cons_succ, List.getElem?_drop]
    have h2 : r + (i - r) = i := by omega
    rw [h2, h]

theorem row_le_length (messages : List MessageData) (p : Nat) :
    receiveMessage.row messages p ≤ messages.length := by
  by_cases hp : p = 0
  · subst hp
    simp [row_of_zero_prior]
  · by_cases hex : ∃ i, IsAnchor messages p i
    · classical
      have hfind := Nat.find_spec hex
      rw [row_of_anchor _ _ _ hp hfind (fun j hj => Nat.find_min hex hj)]
      obtain ⟨_, x, hx, _⟩ := hfind
      exact le_of_lt (List.getElem?_eq_some.1 hx).1
    · rw [row_of_no_anchor _ _ (fun i hi => hex ⟨i, hi⟩)]
      exact Nat.zero_le _

theorem length_ne_zero_of_ne_empty (text : String) (ht : text ≠ "") : text.length ≠ 0 := by
  intro h
  apply ht
  have hd : text.data = [] := List.length_eq_zero.1 h
  exact String.ext hd

theorem sendMessage_of_empty (m : Store) (sendTime now : Int) (c : Nat) :
    sendMessage m "" sendTime now c = some (m, none) := rfl

theorem sendMessage_of_contact (m : Store) (text : String) (sendTime now : Int) (c contact : Nat)
    (hc : m.m_contact = some contact) (ht : text ≠ "") :
    sendMessage m text sendTime now c =
      some ({ m with messages := ⟨text, now, c, .Sending⟩ :: m.messages },
        some ⟨contact, sendTime, text, m.lastReceivedId⟩) := by
  simp [sendMessage, length_ne_zero_of_ne_empty text ht, hc]

/-- Whatever `sendMessage` returns, the old messages follow in their old order
behind at most one new message, and the counters are kept. -/
theorem sendMessage_result (m : Store) (text : String) (sendTime now : Int) (c : Nat)
    (r : Store × Option SendRequest) (h : sendMessage m text sendTime now c = some r) :
    r.1.messages = (if text.length = 0 then [] else [⟨text, now, c, .Sending⟩]) ++ m.messages ∧
      r.1.m_unreadCount = m.m_unreadCount ∧ r.1.lastReceivedId = m.lastReceivedId ∧
      r.1.m_contact = m.m_contact := by
  unfold sendMessage at h
  split at h
  · cases h
    simp [*]
  · split at h
    · cases h
    · cases h
      simp [*]

/-! ## `QString::trimmed` -/

theorem dropWhile_head_not {α : Type} (p : α → Bool) (l : List α) (a : α)
    (h : (l.dropWhile p).head? = some a) : p a = false := by
  induction l with
  | nil => simp at h
  | cons b l ih =>
    by_cases hb : p b = true
    · rw [List.dropWhile_cons_of_pos hb] at h
      exact ih h
    · rw [List.dropWhile_cons_of_neg hb] at h
      simp at h
      subst h
      simpa using hb

/-- What trimming does to a list of characters: a run of whitespace is cut from
each end, and what is left neither starts nor ends in whitespace. -/
theorem trimmed_spec (s : String) :
    ∃ ws1 ws2 : List Char,
      s.data = ws1 ++ (QString.trimmed s).data ++ ws2 ∧
      (∀ c ∈ ws1, QChar.isSpace c = true) ∧ (∀ c ∈ ws2, QChar.isSpace c = true) ∧
      (∀ c, (QString.trimmed s).data.head? = some c → QChar.isSpace c = false) ∧
      (∀ c, (QString.trimmed s).data.getLast? = some c → QChar.isSpace c = false) := by
  set d := s.data.dropWhile QChar.isSpace with hd
  have h1 : s.data = s.data.takeWhile QChar.isSpace ++ d :=
    (List.takeWhile_append_dropWhile QChar.isSpace s.data).symm
  have h2 : d = (d.reverse.dropWhile QChar.isSpace).reverse ++
      (d.reverse.takeWhile QChar.isSpace).reverse := by
    rw [← List.reverse_append, List.takeWhile_append_dropWhile, List.reverse_reverse]
  have ht : (QString.trimmed s).data = (d.reverse.dropWhile QChar.isSpace).reverse := rfl
  refine ⟨s.data.takeWhile QChar.isSpace, (d.reverse.takeWhile QChar.isSpace).reverse,
    ?_, ?_, ?_, ?_, ?_⟩
  · rw [ht, List.append_assoc, ← h2]
    exact h1
  · intro c hc
    exact List.mem_takeWhile_imp hc
  · intro c hc
    exact List.mem_takeWhile_imp (List.mem_reverse.1 hc)
  · intro c hc
    rw [ht] at hc
    apply dropWhile_head_not QChar.isSpace s.data c
    rw [← hd, h2]
    cases hq : (d.reverse.dropWhile QChar.isSpace).reverse with
    | nil => rw [hq] at hc; simp at hc
    | cons a rest => rw [hq] at hc; simpa using hc
  · intro c hc
    rw [ht, List.getLast?_reverse] at hc
    exact dropWhile_head_not QChar.isSpace d.reverse c hc

/-! ## The sending messages along a trace -/

theorem set_decompose {α : Type} (l : List α) (k : Nat) (x v : α) (hk : l[k]? = some x) :
    l = l.take k ++ x :: l.drop (k + 1) ∧ l.set k v = l.take k ++ v :: l.drop (k + 1) := by
  obtain ⟨hlt, hget⟩ := List.getElem?_eq_some.1 hk
  constructor
  · conv_lhs => rw [← List.take_append_drop k l, List.drop_eq_getElem_cons hlt, hget]
  · rw [List.set_eq_take_append_cons_drop, if_pos hlt]

theorem sendingIds_append (a b : List MessageData) :
    sendingIds (a ++ b) = sendingIds a ++ sendingIds b := by
  simp [sendingIds]

theorem sendingIds_cons (x : MessageData) (l : List MessageData) :
    sendingIds (x :: l) =
      (if x.status = .Sending then [x.identifier] else []) ++ sendingIds l := by
  by_cases h : x.status = .Sending <;> simp [sendingIds, h]

theorem mem_sendingIds (l : List MessageData) (d : Nat) :
    d ∈ sendingIds l ↔ ∃ y ∈ l, y.status = .Sending ∧ y.identifier = d := by
  simp [sendingIds, and_assoc]

theorem filter_sendingIds_self (l : List MessageData) (c : Nat)
    (h : ∀ y ∈ l, y.status = .Sending → y.identifier ≠ c) :
    (sendingIds l).filter (fun d => d ≠ c) = sendingIds l := by
  rw [List.filter_eq_self]
  intro d hd
  obtain ⟨y, hy, hs, rfl⟩ := (mem_sendingIds l d).1 hd
  simpa using h y hy hs

theorem sendingCount_eq (m : Store) : sendingCount m = (sendingIds m.messages).length := by
  simp [sendingCount, sendingIds, List.countP_eq_length_filter]

/-- A completion notification removes its identifier from the identifiers of
the sending messages, and keeps every sending message in front of the other
outgoing messages with its identifier. -/
theorem completion_inv (m : Store) (cmd : ChatMessageCommand)
    (hinv : SendingFirst m.messages) :
    sendingIds (messageReply m (some cmd)).messages =
        (sendingIds m.messages).filter (fun d => d ≠ cmd.identifier) ∧
      SendingFirst (messageReply m (some cmd)).messages := by
  rcases messageReply_cases m cmd with ⟨h, hno⟩ | ⟨k, x, hk, hx, hmin, h⟩
  · rw [h]
    refine ⟨(filter_sendingIds_self _ _ ?_).symm, hinv⟩
    intro y hy hs hc
    exact hno y hy ⟨hc, by simp [hs]⟩
  · obtain ⟨hl, hset⟩ := set_decompose m.messages k x
      { x with status := if cmd.isSuccess then .Delivered else .Error } hk
    have hnew : (messageReply m (some cmd)).messages =
        m.messages.take k ++
          { x with status := if cmd.isSuccess then .Delivered else .Error } ::
            m.messages.drop (k + 1) := by
      rw [h]
      exact hset
    have hns : ({ x with status := if cmd.isSuccess then .Delivered else .Error } :
        MessageData).status ≠ .Sending := by
      cases cmd.isSuccess <;> simp
    unfold SendingFirst at hinv ⊢
    rw [hl, List.pairwise_append, List.pairwise_cons] at hinv
    obtain ⟨hp1, ⟨hxa, hp2⟩, hcross⟩ := hinv
    have hbefore : ∀ y ∈ m.messages.take k, y.status = .Sending → y.identifier ≠ cmd.identifier := by
      intro y hy hs hc
      exact hmin y hy ⟨hc, by simp [hs]⟩
    have hafter : ∀ y ∈ m.messages.drop (k + 1), y.status = .Sending →
        y.identifier ≠ cmd.identifier := by
      intro y hy hs
      rw [← hx.1]
      exact hxa y hy hx.2 hs
    constructor
    · rw [hnew, sendingIds_append, sendingIds_cons, if_neg hns]
      conv_rhs => rw [hl, sendingIds_append, sendingIds_cons]
      rw [List.filter_append, List.filter_append, filter_sendingIds_self _ _ hbefore,
        filter_sendingIds_self _ _ hafter]
      by_cases hs : x.status = .Sending <;> simp [hs, hx.1]
    · rw [hnew, List.pairwise_append, List.pairwise_cons]
      refine ⟨hp1, ⟨?_, hp2⟩, ?_⟩
      · intro b hb _ hbs
        exact hxa b hb hx.2 hbs
      · intro a ha b hb
        rcases List.mem_cons.1 hb with rfl | hb
        · intro _ hs
          exact absurd hs hns
        · exact hcross a ha b (List.mem_cons_of_mem _ hb)

/-- A send with an identifier no sending message carries puts that identifier
in front of the identifiers of the sending messages. -/
theorem send_inv (messages : List MessageData) (text : String) (now : Int) (c : Nat)
    (hfresh : c ∉ sendingIds messages) (hinv : SendingFirst messages) :
    sendingIds (⟨text, now, c, .Sending⟩ :: messages) = c :: sendingIds messages ∧
      SendingFirst (⟨text, now, c, .Sending⟩ :: messages) := by
  constructor
  · simp [sendingIds_cons]
  · unfold SendingFirst at hinv ⊢
    rw [List.pairwise_cons]
    refine ⟨?_, hinv⟩
    intro b hb _ hbs hbc
    exact hfresh ((mem_sendingIds messages c).2 ⟨b, hb, hbs, hbc⟩)

theorem messageReply_contact (m : Store) (cmd : ChatMessageCommand) :
    (messageReply m (some cmd)).m_contact = m.m_contact := by
  rcases messageReply_cases m cmd with ⟨h, _⟩ | ⟨k, x, _, _, _, h⟩ <;> rw [h]

/-- Along a trace with non-empty texts and fresh identifiers the store is
defined, and its sending messages carry the identifiers of the unresolved sends. -/
theorem run_inv (contact : Nat) (tr : List Event) :
    ∀ m : Store, m.m_contact = some contact → SendingFirst m.messages →
      freshIdsFrom (sendingIds m.messages) tr = true →
      (∀ e ∈ tr, Event.sendsEmpty e = false) →
      ∃ m2, run m tr = some m2 ∧
        sendingIds m2.messages = pendingAfter (sendingIds m.messages) tr := by
  induction tr with
  | nil =>
    intro m _ _ _ _
    exact ⟨m, rfl, rfl⟩
  | cons e later ih =>
    intro m hc hinv hfresh htext
    have hlater : ∀ e2 ∈ later, Event.sendsEmpty e2 = false :=
      fun e2 he2 => htext e2 (List.mem_cons_of_mem _ he2)
    cases e with
    | send text sendTime now c =>
      have ht : text ≠ "" := by
        have := htext _ (List.mem_cons_self _ _)
        simpa [Event.sendsEmpty] using this
      simp only [freshIdsFrom, Bool.and_eq_true, Bool.not_eq_true', List.contains_eq_any_beq,
        List.any_eq_false, beq_iff_eq] at hfresh
      have hnot : c ∉ sendingIds m.messages := fun hmem => hfresh.1 c hmem rfl
      obtain ⟨hids, hinv2⟩ := send_inv m.messages text now c hnot hinv
      have hstep : step m (.send text sendTime now c) =
          some { m with messages := ⟨text, now, c, .Sending⟩ :: m.messages } := by
        simp [step, sendMessage_of_contact m text sendTime now c contact hc ht]
      obtain ⟨m2, hrun, hm2⟩ := ih { m with messages := ⟨text, now, c, .Sending⟩ :: m.messages }
        hc hinv2 (by rw [hids]; exact hfresh.2) hlater
      refine ⟨m2, ?_, ?_⟩
      · simp only [run, hstep, Option.some_bind]
        exact hrun
      · rw [hm2, hids]
        rfl
    | completion c isSuccess =>
      obtain ⟨hids, hinv2⟩ := completion_inv m ⟨c, isSuccess⟩ hinv
      obtain ⟨m2, hrun, hm2⟩ := ih (messageReply m (some ⟨c, isSuccess⟩))
        (by rw [messageReply_contact]; exact hc) hinv2
        (by rw [hids]; exact hfresh) hlater
      refine ⟨m2, ?_, ?_⟩
      · simp only [run, step, Option.some_bind]
        exact hrun
      · rw [hm2, hids]
        rfl

theorem pendingAfter_length (tr : List Event) :
    ∀ pending : List Nat, (pendingAfter pending tr).length =
      (pending.filter (fun d => !tr.any (Event.resolves d))).length + unresolvedSends tr := by
  induction tr with
  | nil => intro pending; simp [pendingAfter, unresolvedSends]
  | cons e later ih =>
    intro pending
    cases e with
    | send text sendTime now c =>
      simp only [pendingAfter, unresolvedSends, ih, List.any_cons, Event.resolves,
        Bool.false_or]
      by_cases hr : later.any (Event.resolves c) = true
      · rw [List.filter_cons_of_neg (by simp [hr]), if_pos hr]
        omega
      · rw [List.filter_cons_of_pos (by simpa using hr), if_neg hr, List.length_cons]
        omega
    | completion c isSuccess =>
      simp only [pendingAfter, unresolvedSends, ih, List.any_cons, Event.resolves,
        List.filter_filter]
      congr 2
      apply List.filter_congr
      intro d _
      by_cases hd : d = c
      · simp [hd]
      · have hcd : ¬ c = d := fun h => hd h.symm
        simp [hd, hcd]

theorem freshIdsFrom_of_append (a b : List Event) :
    ∀ pending : List Nat, freshIdsFrom pending (a ++ b) = true → freshIdsFrom pending a = true := by
  induction a with
  | nil => intro _ _; rfl
  | cons e later ih =>
    intro pending h
    cases e with
    | send text sendTime now c =>
      simp only [List.cons_append, freshIdsFrom, Bool.and_eq_true] at h ⊢
      exact ⟨h.1, ih _ h.2⟩
    | completion c isSuccess =>
      simp only [List.cons_append, freshIdsFrom] at h ⊢
      exact ih _ h

/-! ## Claims -/

/-- C1: `receiveMessage` inserts exactly one new message at a row `r` and keeps
every old message unchanged and in order: the result is the first `r` old
entries, the new message, then the remaining old entries. When `priorMessageID`
is non-zero and one of the first five entries is a received message or carries
`priorMessageID`, `r` is the smallest such index; when `priorMessageID` is zero
or there is no such entry, `r = 0`. On `[A(Received, 10), B(Sending, 7)]` an
incoming message with `messageID = 11`, `priorMessageID = 10` gives `[C, A, B]`. -/
theorem receiveMessage_inserts_at_anchor :
    (∀ (m : Store) (data : ChatMessageData), ∃ r : Nat,
      (receiveMessage m data).messages =
          m.messages.take r ++ receivedMessage data :: m.messages.drop r ∧
        r ≤ m.messages.length ∧
        ((data.priorMessageID ≠ 0 ∧ ∃ i, IsAnchor m.messages data.priorMessageID i) →
          IsAnchor m.messages data.priorMessageID r ∧
            ∀ j, j < r → ¬ IsAnchor m.messages data.priorMessageID j) ∧
        ((data.priorMessageID = 0 ∨ ¬ ∃ i, IsAnchor m.messages data.priorMessageID i) → r = 0)) ∧
    (∀ (a b c : String) (ta tb tc : Int) (last unread : Nat) (contact : Option Nat),
      (receiveMessage
          { messages := [⟨a, ta, 10, .Received⟩, ⟨b, tb, 7, .Sending⟩],
            lastReceivedId := last, m_unreadCount := unread, m_contact := contact }
          { text := c, when := tc, messageID := 11, priorMessageID := 10 }).messages =
        [⟨QString.trimmed c, tc, 11, .Received⟩, ⟨a, ta, 10, .Received⟩, ⟨b, tb, 7, .Sending⟩]) := by
  refine ⟨?_, ?_⟩
  · intro m data
    by_cases hp : data.priorMessageID = 0
    · refine ⟨0, ?_, Nat.zero_le _, fun h => absurd hp h.1, fun _ => rfl⟩
      rw [receiveMessage_messages, hp, row_of_zero_prior]
    · by_cases hex : ∃ i, IsAnchor m.messages data.priorMessageID i
      · classical
        have hfind := Nat.find_spec hex
        have hmin : ∀ j, j < Nat.find hex → ¬ IsAnchor m.messages data.priorMessageID j :=
          fun j hj => Nat.find_min hex hj
        refine ⟨Nat.find hex, ?_, ?_, fun _ => ⟨hfind, hmin⟩, ?_⟩
        · rw [receiveMessage_messages, row_of_anchor _ _ _ hp hfind hmin]
        · obtain ⟨_, x, hx, _⟩ := hfind
          exact le_of_lt (List.getElem?_eq_some.1 hx).1
        · rintro (h | h)
          · exact absurd h hp
          · exact absurd hex h
      · refine ⟨0, ?_, Nat.zero_le _, fun h => absurd h.2 hex, fun _ => rfl⟩
        rw [receiveMessage_messages, row_of_no_anchor _ _ (fun i hi => hex ⟨i, hi⟩)]
  · intro a b c ta tb tc last unread contact
    rfl

/-- C2, as stated, fails: with `[A(Received, 10), B(Sending, 7)]` and
`priorMessageID = 7` the match is at index `k = 1 < 5`, yet the new message goes
to index 0, before the received message `A`; and with a match at index `k = 5`
and a received message at index 2 the new message goes to index 2, not to 0. -/
theorem receiveMessage_prior_match_counterexample :
    (receiveMessage
        { messages := [⟨"a", 1, 10, .Received⟩, ⟨"b", 2, 7, .Sending⟩],
          lastReceivedId := 10, m_unreadCount := 0, m_contact := some 1 }
        { text := "c", when := 3, messageID := 11, priorMessageID := 7 }).messages =
      [⟨"c", 3, 11, .Received⟩, ⟨"a", 1, 10, .Received⟩, ⟨"b", 2, 7, .Sending⟩] ∧
    (receiveMessage
        { messages := [⟨"a", 1, 10, .Received⟩, ⟨"b", 2, 7, .Sending⟩],
          lastReceivedId := 10, m_unreadCount := 0, m_contact := some 1 }
        { text := "c", when := 3, messageID := 11, priorMessageID := 7 }).messages ≠
      QList.insert [⟨"a", 1, 10, .Received⟩, ⟨"b", 2, 7, .Sending⟩] 1 ⟨"c", 3, 11, .Received⟩ ∧
    (receiveMessage
        { messages := [⟨"f", 6, 6, .Sending⟩, ⟨"e", 5, 5, .Sending⟩, ⟨"d", 4, 20, .Received⟩,
            ⟨"c", 3, 3, .Sending⟩, ⟨"b", 2, 2, .Sending⟩, ⟨"a", 1, 1, .Sending⟩],
          lastReceivedId := 20, m_unreadCount := 0, m_contact := some 1 }
        { text := "g", when := 7, messageID := 21, priorMessageID := 1 }).messages =
      [⟨"f", 6, 6, .Sending⟩, ⟨"e", 5, 5, .Sending⟩, ⟨"g", 7, 21, .Received⟩,
        ⟨"d", 4, 20, .Received⟩, ⟨"c", 3, 3, .Sending⟩, ⟨"b", 2, 2, .Sending⟩,
        ⟨"a", 1, 1, .Sending⟩] := by
  decide

/-- C2, amended: let the non-zero `priorMessageID` equal the identifier of the
message at index `k`. If `k < 5` and no message at an index below `k` is a
received one or carries `priorMessageID`, the new message is inserted at index
`k` (the message formerly at `k` and all after it move back by one). If `k ≥ 5`
and none of the first five messages is a received one or carries
`priorMessageID`, the new message is inserted at position 0. -/
theorem receiveMessage_prior_match (m : Store) (data : ChatMessageData) (k : Nat)
    (x : MessageData) (hp : data.priorMessageID ≠ 0) (hk : m.messages[k]? = some x)
    (hx : x.identifier = data.priorMessageID) :
    (k < 5 →
      (∀ y ∈ m.messages.take k, y.status ≠ .Received ∧ y.identifier ≠ data.priorMessageID) →
      (receiveMessage m data).messages =
        m.messages.take k ++ receivedMessage data :: m.messages.drop k) ∧
    (5 ≤ k →
      (∀ y ∈ m.messages.take 5, y.status ≠ .Received ∧ y.identifier ≠ data.priorMessageID) →
      (receiveMessage m data).messages = receivedMessage data :: m.messages) := by
  constructor
  · intro hk5 hbefore
    have hrow : receiveMessage.row m.messages data.priorMessageID = k := by
      apply row_of_anchor _ _ _ hp ⟨hk5, x, hk, Or.inr hx⟩
      rintro j hj ⟨_, y, hy, hc⟩
      have := hbefore y (mem_take_of_getElem? hj hy)
      tauto
    rw [receiveMessage_messages, hrow]
  · intro _ hfirst
    have hrow : receiveMessage.row m.messages data.priorMessageID = 0 := by
      apply row_of_no_anchor
      rintro i ⟨hi, y, hy, hc⟩
      have := hfirst y (mem_take_of_getElem? hi hy)
      tauto
    rw [receiveMessage_messages, hrow]
    rfl

/-- Witness of C2 (amended): a match at index 1 behind one outgoing message, and
a match at index 5 behind five outgoing messages. -/
theorem receiveMessage_prior_match_witness :
    (receiveMessage
        { messages := [⟨"a", 1, 10, .Sending⟩, ⟨"b", 2, 7, .Sending⟩],
          lastReceivedId := 0, m_unreadCount := 0, m_contact := some 1 }
        { text := "c", when := 3, messageID := 11, priorMessageID := 7 }).messages =
      [⟨"a", 1, 10, .Sending⟩, ⟨"c", 3, 11, .Received⟩, ⟨"b", 2, 7, .Sending⟩] ∧
    (receiveMessage
        { messages := [⟨"f", 6, 6, .Sending⟩, ⟨"e", 5, 5, .Sending⟩, ⟨"d", 4, 4, .Sending⟩,
            ⟨"c", 3, 3, .Sending⟩, ⟨"b", 2, 2, .Sending⟩, ⟨"a", 1, 1, .Sending⟩],
          lastReceivedId := 0, m_unreadCount := 0, m_contact := some 1 }
        { text := "g", when := 7, messageID := 21, priorMessageID := 1 }).messages =
      [⟨"g", 7, 21, .Received⟩, ⟨"f", 6, 6, .Sending⟩, ⟨"e", 5, 5, .Sending⟩,
        ⟨"d", 4, 4, .Sending⟩, ⟨"c", 3, 3, .Sending⟩, ⟨"b", 2, 2, .Sending⟩,
        ⟨"a", 1, 1, .Sending⟩] :=
  ⟨(receiveMessage_prior_match
      { messages := [⟨"a", 1, 10, .Sending⟩, ⟨"b", 2, 7, .Sending⟩],
        lastReceivedId := 0, m_unreadCount := 0, m_contact := some 1 }
      { text := "c", when := 3, messageID := 11, priorMessageID := 7 } 1 ⟨"b", 2, 7, .Sending⟩
      (by decide) (by decide) (by decide)).1 (by decide) (by decide),
   (receiveMessage_prior_match
      { messages := [⟨"f", 6, 6, .Sending⟩, ⟨"e", 5, 5, .Sending⟩, ⟨"d", 4, 4, .Sending⟩,
          ⟨"c", 3, 3, .Sending⟩, ⟨"b", 2, 2, .Sending⟩, ⟨"a", 1, 1, .Sending⟩],
        lastReceivedId := 0, m_unreadCount := 0, m_contact := some 1 }
      { text := "g", when := 7, messageID := 21, priorMessageID := 1 } 5 ⟨"a", 1, 1, .Sending⟩
      (by decide) (by decide) (by decide)).2 (by decide) (by decide)⟩

/-- C3: when the first outgoing message (lowest index, status other than
`Received`) carrying the identifier of the completion notification is at index
`k` and has status `Sending`, `messageReply` sets the status of that message to
`Delivered` on success and to `Error` otherwise, and changes nothing else: the
length and order of the sequence, every other message, the text, time and
identifier of that message, `m_unreadCount`, `lastReceivedId` and the contact
stay as they were. Received messages with the same identifier at lower indices
are among the entries that stay as they were. -/
theorem messageReply_resolves_sending (m : Store) (cmd : ChatMessageCommand) (k : Nat)
    (x : MessageData) (hk : m.messages[k]? = some x) (hid : x.identifier = cmd.identifier)
    (hst : x.status = .Sending)
    (hfirst : ∀ y ∈ m.messages.take k,
      ¬ (y.identifier = cmd.identifier ∧ y.status ≠ .Received)) :
    messageReply m (some cmd) =
        { m with
        messages := m.messages.set k
          { x with status := if cmd.isSuccess then .Delivered else .Error } } ∧
      (messageReply m (some cmd)).messages.length = m.messages.length ∧
      (messageReply m (some cmd)).messages[k]? =
        some { text := x.text, time := x.time, identifier := x.identifier,
               status := if cmd.isSuccess then .Delivered else .Error } ∧
      (∀ j, j ≠ k → (messageReply m (some cmd)).messages[j]? = m.messages[j]?) ∧
      (messageReply m (some cmd)).m_unreadCount = m.m_unreadCount ∧
      (messageReply m (some cmd)).lastReceivedId = m.lastReceivedId ∧
      (messageReply m (some cmd)).m_contact = m.m_contact := by
  have hx : x.identifier = cmd.identifier ∧ x.status ≠ .Received := ⟨hid, by simp [hst]⟩
  have h := messageReply_of_first_match m cmd k x hk hx hfirst
  have hlt : k < m.messages.length := (List.getElem?_eq_some.1 hk).1
  rw [h]
  refine ⟨rfl, by simp, by simp [hlt], ?_, rfl, rfl, rfl⟩
  intro j hj
  simp [List.getElem?_set, Ne.symm hj]

/-- Witness of C3: a received message with identifier 5 at index 0 is skipped and
the sending message with identifier 5 at index 1 becomes delivered. -/
theorem messageReply_resolves_sending_witness :
    messageReply
        { messages := [⟨"in", 2, 5, .Received⟩, ⟨"out", 1, 5, .Sending⟩],
          lastReceivedId := 5, m_unreadCount := 1, m_contact := some 1 }
        (some { identifier := 5, isSuccess := true }) =
      { messages := [⟨"in", 2, 5, .Received⟩, ⟨"out", 1, 5, .Delivered⟩],
        lastReceivedId := 5, m_unreadCount := 1, m_contact := some 1 } :=
  (messageReply_resolves_sending
    { messages := [⟨"in", 2, 5, .Received⟩, ⟨"out", 1, 5, .Sending⟩],
      lastReceivedId := 5, m_unreadCount := 1, m_contact := some 1 }
    { identifier := 5, isSuccess := true } 1 ⟨"out", 1, 5, .Sending⟩
    (by decide) (by decide) (by decide) (by decide)).1

/-- C4, as stated, fails: a completion notification reporting failure for
identifier 5 turns the delivered message with identifier 5 into an error
message, and one reporting success turns an error message into a delivered one. -/
theorem terminal_status_counterexample :
    (messageReply
        { messages := [⟨"a", 1, 5, .Delivered⟩],
          lastReceivedId := 0, m_unreadCount := 0, m_contact := some 1 }
        (some { identifier := 5, isSuccess := false })).messages = [⟨"a", 1, 5, .Error⟩] ∧
    (messageReply
        { messages := [⟨"a", 1, 5, .Error⟩],
          lastReceivedId := 0, m_unreadCount := 0, m_contact := some 1 }
        (some { identifier := 5, isSuccess := true })).messages = [⟨"a", 1, 5, .Delivered⟩] := by
  decide

/-- C4, amended: a message `x` at index `i` with status `Delivered` or `Error`
is found unchanged, status included, after `sendMessage` (at `i + 1`, or at `i`
for the empty text), after `receiveMessage` (at `i` when `i` is before the row of
the insertion, else at `i + 1`), after `resetUnreadCount`, after a
`messageReply` without command, and after a completion notification unless `x`
is the first outgoing message carrying the identifier of the notification, that
is whenever `x` has another identifier or an outgoing message at a lower index
carries the identifier. -/
theorem terminal_status_kept (m : Store) (i : Nat) (x : MessageData)
    (hx : m.messages[i]? = some x) (hs : x.status = .Delivered ∨ x.status = .Error) :
    (∀ text sendTime now c r, sendMessage m text sendTime now c = some r →
        r.1.messages[if text.length = 0 then i else i + 1]? = some x) ∧
      (∀ data, (receiveMessage m data).messages[
          if i < receiveMessage.row m.messages data.priorMessageID then i else i + 1]? = some x) ∧
      (resetUnreadCount m).messages[i]? = some x ∧
      (messageReply m none).messages[i]? = some x ∧
      (∀ cmd : ChatMessageCommand,
        (x.identifier ≠ cmd.identifier ∨
          ∃ y ∈ m.messages.take i, y.identifier = cmd.identifier ∧ y.status ≠ .Received) →
        (messageReply m (some cmd)).messages[i]? = some x) := by
  refine ⟨?_, ?_, ?_, hx, ?_⟩
  · intro text sendTime now c r hr
    rw [(sendMessage_result m text sendTime now c r hr).1]
    split <;> simpa using hx
  · intro data
    exact getElem?_insert m.messages _ i _ x hx
  · unfold resetUnreadCount
    split <;> exact hx
  · intro cmd hne
    rcases messageReply_cases m cmd with ⟨h, _⟩ | ⟨k, x2, hk, hx2, hmin, h⟩
    · rw [h]
      exact hx
    · have hki : k ≠ i := by
        rintro rfl
        have hxx : x2 = x := by rw [hk] at hx; exact Option.some.inj hx
        subst hxx
        rcases hne with hne | ⟨y, hy, hyc⟩
        · exact hne hx2.1
        · exact hmin y hy hyc
      rw [h]
      simp [List.getElem?_set, hki, hx]

/-- Witness of C4 (amended): the delivered message with identifier 5 at index 1
keeps its status under a failure notification for 5, which goes to the newer
outgoing message with identifier 5 at index 0. -/
theorem terminal_status_kept_witness :
    (messageReply
        { messages := [⟨"b", 2, 5, .Sending⟩, ⟨"a", 1, 5, .Delivered⟩],
          lastReceivedId := 0, m_unreadCount := 0, m_contact := some 1 }
        (some { identifier := 5, isSuccess := false })).messages[1]? =
      some ⟨"a", 1, 5, .Delivered⟩ :=
  (terminal_status_kept
    { messages := [⟨"b", 2, 5, .Sending⟩, ⟨"a", 1, 5, .Delivered⟩],
      lastReceivedId := 0, m_unreadCount := 0, m_contact := some 1 }
    1 ⟨"a", 1, 5, .Delivered⟩ (by decide) (by decide)).2.2.2.2
    { identifier := 5, isSuccess := false } (Or.inr (by decide))

/-- C5: a completion notification whose identifier is carried by no outgoing
message (every message with that identifier, if any, is a received one; the
sequence may be empty) leaves the whole state as it is: the message sequence
with every status, `m_unreadCount`, `lastReceivedId` and the contact. -/
theorem messageReply_unknown_identifier (m : Store) (cmd : ChatMessageCommand)
    (hno : ∀ y ∈ m.messages, y.identifier = cmd.identifier → y.status = .Received) :
    messageReply m (some cmd) = m :=
  messageReply_of_no_match m cmd (fun y hy hc => hc.2 (hno y hy hc.1))

/-- Witness of C5: a received message carries the identifier 5 of the
notification, and the store is empty after a clear. -/
theorem messageReply_unknown_identifier_witness :
    messageReply
        { messages := [⟨"in", 2, 5, .Received⟩, ⟨"out", 1, 6, .Sending⟩],
          lastReceivedId := 5, m_unreadCount := 1, m_contact := some 1 }
        (some { identifier := 5, isSuccess := true }) =
      { messages := [⟨"in", 2, 5, .Received⟩, ⟨"out", 1, 6, .Sending⟩],
        lastReceivedId := 5, m_unreadCount := 1, m_contact := some 1 } ∧
    messageReply
        { messages := [], lastReceivedId := 5, m_unreadCount := 0, m_contact := some 1 }
        (some { identifier := 5, isSuccess := false }) =
      { messages := [], lastReceivedId := 5, m_unreadCount := 0, m_contact := some 1 } :=
  ⟨messageReply_unknown_identifier
      { messages := [⟨"in", 2, 5, .Received⟩, ⟨"out", 1, 6, .Sending⟩],
        lastReceivedId := 5, m_unreadCount := 1, m_contact := some 1 }
      { identifier := 5, isSuccess := true } (by decide),
   messageReply_unknown_identifier
      { messages := [], lastReceivedId := 5, m_unreadCount := 0, m_contact := some 1 }
      { identifier := 5, isSuccess := false } (by decide)⟩

/-- C6: with a contact set, `sendMessage` of a non-empty text yields the message
`(text, now, identifier, Sending)` followed by the old sequence unchanged: the
new message is at position 0, its text is the given text as it is (not
trimmed), `m_unreadCount` and `lastReceivedId` are kept, and the transport is
handed the text together with the current `lastReceivedId`. -/
theorem sendMessage_prepends_sending (m : Store) (text : String) (sendTime now : Int)
    (identifier contact : Nat) (hc : m.m_contact = some contact) (ht : text ≠ "") :
    sendMessage m text sendTime now identifier =
      some ({ messages := ⟨text, now, identifier, .Sending⟩ :: m.messages,
              lastReceivedId := m.lastReceivedId, m_unreadCount := m.m_unreadCount,
              m_contact := m.m_contact },
            some { contact := contact, when := sendTime, text := text,
                   lastReceived := m.lastReceivedId }) :=
  sendMessage_of_contact m text sendTime now identifier contact hc ht

/-- Witness of C6: a text with surrounding blanks is stored as it is. -/
theorem sendMessage_prepends_sending_witness :
    sendMessage
        { messages := [⟨"in", 2, 5, .Received⟩],
          lastReceivedId := 5, m_unreadCount := 1, m_contact := some 1 }
        " hi " 10 11 7 =
      some ({ messages := [⟨" hi ", 11, 7, .Sending⟩, ⟨"in", 2, 5, .Received⟩],
              lastReceivedId := 5, m_unreadCount := 1, m_contact := some 1 },
            some { contact := 1, when := 10, text := " hi ", lastReceived := 5 }) :=
  sendMessage_prepends_sending
    { messages := [⟨"in", 2, 5, .Received⟩],
      lastReceivedId := 5, m_unreadCount := 1, m_contact := some 1 }
    " hi " 10 11 7 1 (by decide) (by decide)

/-- C7: `receiveMessage` is total and never rejects: the sequence grows by
exactly one entry, also when the identifier is already stored; the entry at the
row of the insertion has status `Received`, identifier `messageID`, the given
time, and the trimmed text, which is the incoming text without a leading and a
trailing run of whitespace and neither starts nor ends in whitespace; and
`lastReceivedId` is `messageID` afterwards. -/
theorem receiveMessage_always_inserts (m : Store) (data : ChatMessageData) :
    (receiveMessage m data).messages.length = m.messages.length + 1 ∧
      (receiveMessage m data).messages[receiveMessage.row m.messages data.priorMessageID]? =
        some { text := QString.trimmed data.text, time := data.when,
               identifier := data.messageID, status := .Received } ∧
      (receiveMessage m data).lastReceivedId = data.messageID ∧
      (∃ ws1 ws2 : List Char,
        data.text.data = ws1 ++ (QString.trimmed data.text).data ++ ws2 ∧
        (∀ c ∈ ws1, QChar.isSpace c = true) ∧ (∀ c ∈ ws2, QChar.isSpace c = true) ∧
        (∀ c, (QString.trimmed data.text).data.head? = some c → QChar.isSpace c = false) ∧
        (∀ c, (QString.trimmed data.text).data.getLast? = some c →
          QChar.isSpace c = false)) := by
  have hle := row_le_length m.messages data.priorMessageID
  refine ⟨?_, ?_, rfl, trimmed_spec data.text⟩
  · rw [receiveMessage_messages]
    simp
    omega
  · rw [receiveMessage_messages, List.getElem?_append_right (by simp)]
    simp [hle]
    rfl

/-- C8: `m_unreadCount` grows by exactly 1 on every `receiveMessage`; it is kept
by every `sendMessage`, which returns whenever the text is empty or a contact is
set, and by every `messageReply`, with or without a matching message, reporting
success or failure. -/
theorem unreadCount_frame (m : Store) :
    (∀ data, (receiveMessage m data).m_unreadCount = m.m_unreadCount + 1) ∧
      (∀ text sendTime now c,
        (text = "" ∨ m.m_contact ≠ none) → (sendMessage m text sendTime now c).isSome = true) ∧
      (∀ text sendTime now c r, sendMessage m text sendTime now c = some r →
        r.1.m_unreadCount = m.m_unreadCount) ∧
      (∀ cmd, (messageReply m cmd).m_unreadCount = m.m_unreadCount) := by
  refine ⟨fun _ => rfl, ?_, ?_, ?_⟩
  · intro text sendTime now c h
    by_cases ht : text = ""
    · subst ht
      rfl
    · rcases h with h | h
      · exact absurd h ht
      · obtain ⟨contact, hc⟩ := Option.ne_none_iff_exists'.1 h
        rw [sendMessage_of_contact m text sendTime now c contact hc ht]
        rfl
  · intro text sendTime now c r hr
    exact (sendMessage_result m text sendTime now c r hr).2.1
  · intro cmd
    cases cmd with
    | none => rfl
    | some cmd =>
      rcases messageReply_cases m cmd with ⟨h, _⟩ | ⟨k, x, _, _, _, h⟩
      · rw [h]
      · rw [h]

/-- C9: with a contact set, `sendMessage` of a non-empty text followed at once
by a success notification for its identifier leaves at position 0 the message
with that text, that identifier and status `Delivered`, and behind it every
older message exactly as it was before the send, also when an older outgoing
message carries the same identifier; nothing else of the store changes. From
the empty store and the text `hello` the result is exactly one message, with
text `hello` and status `Delivered`. -/
theorem send_then_success_delivers (m : Store) (text : String) (sendTime now : Int)
    (identifier contact : Nat) (hc : m.m_contact = some contact) (ht : text ≠ "") :
    ((sendMessage m text sendTime now identifier).map
        (fun r => messageReply r.1 (some { identifier := identifier, isSuccess := true }))) =
      some { messages := ⟨text, now, identifier, .Delivered⟩ :: m.messages,
             lastReceivedId := m.lastReceivedId, m_unreadCount := m.m_unreadCount,
             m_contact := m.m_contact } ∧
    ((sendMessage (setContact Store.init (some contact)) "hello" sendTime now identifier).map
        (fun r => (messageReply r.1
          (some { identifier := identifier, isSuccess := true })).messages)) =
      some [⟨"hello", now, identifier, .Delivered⟩] := by
  constructor
  · rw [sendMessage_of_contact m text sendTime now identifier contact hc ht]
    simp only [Option.map_some']
    rw [messageReply_of_first_match _ _ 0 ⟨text, now, identifier, .Sending⟩ (by simp)
      ⟨rfl, by simp⟩ (by simp)]
    simp
  · have hs : setContact Store.init (some contact) =
        { messages := [], lastReceivedId := 0, m_unreadCount := 0, m_contact := some contact } := by
      simp [setContact, Store.init]
    rw [hs, sendMessage_of_contact _ "hello" sendTime now identifier contact rfl (by decide)]
    simp only [Option.map_some']
    rw [messageReply_of_first_match _ _ 0 ⟨"hello", now, identifier, .Sending⟩ (by simp)
      ⟨rfl, by simp⟩ (by simp)]
    simp

/-- Witness of C9: an older sending message carries the same identifier 7 and
stays as it was. -/
theorem send_then_success_delivers_witness :
    ((sendMessage
        { messages := [⟨"old", 1, 7, .Sending⟩],
          lastReceivedId := 0, m_unreadCount := 0, m_contact := some 1 }
        "hello" 10 11 7).map
        (fun r => messageReply r.1 (some { identifier := 7, isSuccess := true }))) =
      some { messages := [⟨"hello", 11, 7, .Delivered⟩, ⟨"old", 1, 7, .Sending⟩],
             lastReceivedId := 0, m_unreadCount := 0, m_contact := some 1 } :=
  (send_then_success_delivers
    { messages := [⟨"old", 1, 7, .Sending⟩],
      lastReceivedId := 0, m_unreadCount := 0, m_contact := some 1 }
    "hello" 10 11 7 1 (by decide) (by decide)).1

/-- C10, as stated, fails: two sends are assigned the identifier 1, two
completion notifications for 1 follow, and a third send gets the identifier 2.
Both notifications go to the newer of the two messages with identifier 1, the
older one stays `Sending`, so two messages are `Sending` after the third send
while only that third send is unresolved. -/
theorem sending_count_counterexample :
    (run (setContact Store.init (some 1))
        [.send "a" 1 1 1, .send "b" 2 2 1, .completion 1 true, .completion 1 true,
          .send "c" 3 3 2]).map (fun m => m.messages) =
      some [⟨"c", 3, 2, .Sending⟩, ⟨"b", 2, 1, .Delivered⟩, ⟨"a", 1, 1, .Sending⟩] ∧
    (run (setContact Store.init (some 1))
        [.send "a" 1 1 1, .send "b" 2 2 1, .completion 1 true, .completion 1 true,
          .send "c" 3 3 2]).map sendingCount = some 2 ∧
    unresolvedSends
        [.send "a" 1 1 1, .send "b" 2 2 1, .completion 1 true, .completion 1 true,
          .send "c" 3 3 2] = 1 := by
  decide

/-- C10, amended: take a trace of sends with non-empty texts and completion
notifications in which no send is assigned an identifier that an earlier send,
not yet resolved by a completion notification, carries. Applied to the empty
store with a contact set, the store is defined immediately after each event
`e` of the trace, so after each send, and its number of messages with status
`Sending` equals the number of sends so far that no completion notification for
their identifier has resolved. -/
theorem sending_count_eq_unresolved (contact : Nat) (tr before later : List Event) (e : Event)
    (htr : tr = before ++ e :: later)
    (htext : ∀ e2 ∈ tr, Event.sendsEmpty e2 = false)
    (hfresh : freshIdsFrom [] tr = true) :
    ∃ m, run (setContact Store.init (some contact)) (before ++ [e]) = some m ∧
      sendingCount m = unresolvedSends (before ++ [e]) := by
  have hsplit : tr = (before ++ [e]) ++ later := by simp [htr]
  have hfresh2 : freshIdsFrom [] (before ++ [e]) = true :=
    freshIdsFrom_of_append (before ++ [e]) later [] (hsplit ▸ hfresh)
  have htext2 : ∀ e2 ∈ before ++ [e], Event.sendsEmpty e2 = false := by
    intro e2 he2
    apply htext
    rw [hsplit]
    exact List.mem_append_left _ he2
  obtain ⟨m, hrun, hids⟩ := run_inv contact (before ++ [e])
    (setContact Store.init (some contact)) (by simp [setContact, Store.init])
    (by simp [setContact, Store.init, SendingFirst])
    (by simpa [setContact, Store.init, sendingIds] using hfresh2) htext2
  refine ⟨m, hrun, ?_⟩
  rw [sendingCount_eq, hids, pendingAfter_length]
  simp [setContact, Store.init, sendingIds]

/-- Witness of C10 (amended): identifier 1 is used again after its first send
was resolved; after the last send two sends are unresolved. -/
theorem sending_count_eq_unresolved_witness :
    ∃ m, run (setContact Store.init (some 1))
        ([.send "a" 1 1 1, .completion 1 true, .send "b" 2 2 1] ++ [.send "c" 3 3 2]) = some m ∧
      sendingCount m =
        unresolvedSends
          ([.send "a" 1 1 1, .completion 1 true, .send "b" 2 2 1] ++ [.send "c" 3 3 2]) :=
  sending_count_eq_unresolved 1
    [.send "a" 1 1 1, .completion 1 true, .send "b" 2 2 1, .send "c" 3 3 2]
    [.send "a" 1 1 1, .completion 1 true, .send "b" 2 2 1] [] (.send "c" 3 3 2)
    (by decide) (by decide) (by decide)

/-- C11: on a non-empty message sequence `clear` leaves the sequence empty and
`m_unreadCount` equal to 0, and keeps `lastReceivedId` and the contact; on an
empty message sequence `clear` changes nothing, `m_unreadCount` included. -/
theorem clear_empties_and_resets (m : Store) :
    (m.messages ≠ [] →
      (clear m).messages = [] ∧ (clear m).m_unreadCount = 0 ∧
        (clear m).lastReceivedId = m.lastReceivedId ∧ (clear m).m_contact = m.m_contact) ∧
    (m.messages = [] → clear m = m) := by
  constructor
  · intro hne
    have he : m.messages.isEmpty = false := by
      cases hm : m.messages with
      | nil => exact absurd hm hne
      | cons a l => rfl
    unfold clear resetUnreadCount
    simp only [he, Bool.false_eq_true, if_false]
    split
    · next h0 => exact ⟨rfl, h0, rfl, rfl⟩
    · exact ⟨rfl, rfl, rfl, rfl⟩
  · intro he
    simp [clear, he]

/-! ## The section role -/

theorem sectionLoop_eq_any (row : Nat) (rest : List MessageData) :
    ∀ i, data.sectionLoop row rest i = (rest.take (row + 1 - i)).any isAcknowledged := by
  induction rest with
  | nil => intro i; simp [data.sectionLoop]
  | cons msg rest ih =>
    intro i
    by_cases hi : i ≤ row
    · have h1 : row + 1 - i = (row + 1 - (i + 1)) + 1 := by omega
      rw [h1, List.take_succ_cons, List.any_cons, ← ih (i + 1)]
      by_cases hc : msg.status = .Received ∨ msg.status = .Delivered
      · simp [data.sectionLoop, hi, hc, isAcknowledged]
      · simp [data.sectionLoop, hi, hc, isAcknowledged]
    · have h1 : row + 1 - i = 0 := by omega
      simp [data.sectionLoop, hi, h1]

theorem nextUnacknowledged_eq_false (messages : List MessageData) (row : Nat) :
    data.nextUnacknowledged messages row = false ↔
      (row + 1 = messages.length ∨ row + 1 > messages.length ∨
        ∃ next, messages[row + 1]? = some next ∧ isAcknowledged next = true) := by
  unfold data.nextUnacknowledged
  cases h : messages[row + 1]? with
  | none =>
    have hlen := List.getElem?_eq_none_iff.1 h
    simp
    omega
  | some next =>
    have hlt := (List.getElem?_eq_some.1 h).1
    simp only [decide_eq_false_iff_not, Option.some.injEq, exists_eq_left', isAcknowledged,
      decide_eq_true_eq]
    constructor
    · intro hn
      right; right
      by_contra hc
      exact hn ⟨fun h1 => hc (Or.inl h1), fun h2 => hc (Or.inr h2)⟩
    · rintro (h1 | h1 | h1)
      · omega
      · omega
      · intro hn
        rcases h1 with h1 | h1
        · exact hn.1 h1
        · exact hn.2 h1

/-- The section label the code computes for a valid row when a contact is set. -/
theorem data_section (m : Store) (online : Bool) (r contact : Nat) (x : MessageData)
    (hc : m.m_contact = some contact) (hx : m.messages[r]? = some x) :
    data m online (some r) .SectionRole =
      some (.string (if online = false ∧ data.nextUnacknowledged m.messages r = false ∧
        (m.messages.take (r + 1)).any isAcknowledged = false then "offline" else "")) := by
  simp only [data, hx, hc, sectionLoop_eq_any, Nat.sub_zero]
  cases online <;> cases data.nextUnacknowledged m.messages r <;>
    cases (m.messages.take (r + 1)).any isAcknowledged <;> simp

theorem headRun_iff (l : List MessageData) :
    ∀ r, r < l.length →
      (((l.take (r + 1)).any isAcknowledged = false ∧
          (r + 1 = l.length ∨ ∃ next, l[r + 1]? = some next ∧ isAcknowledged next = true)) ↔
        r + 1 = headRun l) := by
  induction l with
  | nil => intro r hr; simp at hr
  | cons a l ih =>
    intro r hr
    by_cases ha : isAcknowledged a = true
    · simp [headRun, List.takeWhile_cons, ha]
    · have ha2 : isAcknowledged a = false := by simpa using ha
      have hrun : headRun (a :: l) = headRun l + 1 := by
        simp [headRun, List.takeWhile_cons, ha2]
      cases r with
      | zero =>
        rw [hrun]
        cases l with
        | nil => simp [headRun, ha2]
        | cons b l =>
          by_cases hb : isAcknowledged b = true
          · simp [headRun, List.takeWhile_cons, ha2, hb]
          · have hb2 : isAcknowledged b = false := by simpa using hb
            simp [headRun, List.takeWhile_cons, ha2, hb2]
      | succ r =>
        have hr2 : r < l.length := by simpa using hr
        have := ih r hr2
        rw [hrun, List.take_succ_cons, List.any_cons, ha2, Bool.false_or]
        simp only [List.length_cons, List.getElem?_cons_succ, Nat.add_right_cancel_iff]
        exact this

theorem any_acknowledged_eq_false (l : List MessageData) :
    l.any isAcknowledged = false ↔
      ∀ y ∈ l, y.status ≠ .Received ∧ y.status ≠ .Delivered := by
  simp [List.any_eq_false, isAcknowledged, not_or]

theorem isAcknowledged_iff (x : MessageData) :
    isAcknowledged x = true ↔ (x.status = .Received ∨ x.status = .Delivered) := by
  simp [isAcknowledged]

/-- C12, as stated, fails: with three sending messages and the peer not online,
row 0 meets the rule of the specification (no received or delivered message up
to row 0, and row 0 is not the newest-but-one row), yet its section label is
empty, because the message at row 1 is neither received nor delivered. -/
theorem section_label_counterexample :
    specOfflineRule
        [⟨"c", 3, 3, .Sending⟩, ⟨"b", 2, 2, .Sending⟩, ⟨"a", 1, 1, .Sending⟩] false 0 = true ∧
    data
        { messages := [⟨"c", 3, 3, .Sending⟩, ⟨"b", 2, 2, .Sending⟩, ⟨"a", 1, 1, .Sending⟩],
          lastReceivedId := 0, m_unreadCount := 0, m_contact := some 1 }
        false (some 0) .SectionRole = some (.string "") := by
  decide

/-- C12, amended: with a contact set, the section label of a valid row `r` is
`offline` if and only if the peer is not online, no message at an index up to
`r` is received or delivered, and `r` is the last (oldest) row or the adjacent
older message at `r + 1` is received or delivered; in every other case the
label is the empty string. -/
theorem section_label_rule (m : Store) (online : Bool) (r contact : Nat) (x : MessageData)
    (hc : m.m_contact = some contact) (hx : m.messages[r]? = some x) :
    ∃ label, data m online (some r) .SectionRole = some (.string label) ∧
      (label = "offline" ∨ label = "") ∧
      (label = "offline" ↔
        (online = false ∧
          (∀ y ∈ m.messages.take (r + 1), y.status ≠ .Received ∧ y.status ≠ .Delivered) ∧
          (r + 1 = m.messages.length ∨
            ∃ next, m.messages[r + 1]? = some next ∧
              (next.status = .Received ∨ next.status = .Delivered)))) := by
  have hlt : r < m.messages.length := (List.getElem?_eq_some.1 hx).1
  have hnext : data.nextUnacknowledged m.messages r = false ↔
      (r + 1 = m.messages.length ∨
        ∃ next, m.messages[r + 1]? = some next ∧
          (next.status = .Received ∨ next.status = .Delivered)) := by
    rw [nextUnacknowledged_eq_false]
    constructor
    · rintro (h | h | ⟨next, h1, h2⟩)
      · exact Or.inl h
      · omega
      · exact Or.inr ⟨next, h1, (isAcknowledged_iff next).1 h2⟩
    · rintro (h | ⟨next, h1, h2⟩)
      · exact Or.inl h
      · exact Or.inr (Or.inr ⟨next, h1, (isAcknowledged_iff next).2 h2⟩)
  refine ⟨_, data_section m online r contact x hc hx, ?_, ?_⟩
  · split
    · exact Or.inl rfl
    · exact Or.inr rfl
  · rw [← hnext, ← any_acknowledged_eq_false]
    constructor
    · intro h
      split at h
      · next hcond => exact ⟨hcond.1, hcond.2.2, hcond.2.1⟩
      · exact absurd h (by decide)
    · rintro ⟨h1, h2, h3⟩
      rw [if_pos ⟨h1, h3, h2⟩]

/-- Witness of C12 (amended): behind a sending message the delivered message at
row 1 ends the run, and row 0 is labelled `offline`. -/
theorem section_label_rule_witness :
    ∃ label,
      data
          { messages := [⟨"b", 2, 2, .Sending⟩, ⟨"a", 1, 1, .Delivered⟩],
            lastReceivedId := 0, m_unreadCount := 0, m_contact := some 1 }
          false (some 0) .SectionRole = some (.string label) ∧
      (label = "offline" ∨ label = "") ∧
      (label = "offline" ↔
        (false = false ∧
          (∀ y ∈ ([⟨"b", 2, 2, .Sending⟩, ⟨"a", 1, 1, .Delivered⟩] : List MessageData).take (0 + 1),
            y.status ≠ .Received ∧ y.status ≠ .Delivered) ∧
          (0 + 1 = ([⟨"b", 2, 2, .Sending⟩, ⟨"a", 1, 1, .Delivered⟩] : List MessageData).length ∨
            ∃ next,
              ([⟨"b", 2, 2, .Sending⟩, ⟨"a", 1, 1, .Delivered⟩] : List MessageData)[0 + 1]? =
                some next ∧
              (next.status = .Received ∨ next.status = .Delivered)))) :=
  section_label_rule
    { messages := [⟨"b", 2, 2, .Sending⟩, ⟨"a", 1, 1, .Delivered⟩],
      lastReceivedId := 0, m_unreadCount := 0, m_contact := some 1 }
    false 0 1 ⟨"b", 2, 2, .Sending⟩ (by decide) (by decide)

/-- C13, as stated, fails: with a sending message at row 0, an error message at
row 1 and the peer not online, row 1 is labelled `offline` and row 0 is not. -/
theorem offline_group_counterexample :
    data
        { messages := [⟨"b", 2, 2, .Sending⟩, ⟨"a", 1, 1, .Error⟩],
          lastReceivedId := 0, m_unreadCount := 0, m_contact := some 1 }
        false (some 1) .SectionRole = some (.string "offline") ∧
    data
        { messages := [⟨"b", 2, 2, .Sending⟩, ⟨"a", 1, 1, .Error⟩],
          lastReceivedId := 0, m_unreadCount := 0, m_contact := some 1 }
        false (some 0) .SectionRole = some (.string "") := by
  decide

/-- C13, amended: with a contact set, at most one row is labelled `offline`.
Let `n` be the number of messages at the head of the sequence before the first
received or delivered message. A valid row `r` is labelled `offline` if and
only if the peer is not online and `r = n - 1` with `n ≥ 1`, that is `r` is the
oldest row of that head run; every other row has the empty label, and when the
peer is online no row is labelled `offline`. -/
theorem offline_label_single_row (m : Store) (online : Bool) (r contact : Nat)
    (x : MessageData) (hc : m.m_contact = some contact) (hx : m.messages[r]? = some x) :
    ∃ label, data m online (some r) .SectionRole = some (.string label) ∧
      (label = "offline" ∨ label = "") ∧
      (label = "offline" ↔ (online = false ∧ r + 1 = headRun m.messages)) := by
  have hlt : r < m.messages.length := (List.getElem?_eq_some.1 hx).1
  have hrun := headRun_iff m.messages r hlt
  have hnext := nextUnacknowledged_eq_false m.messages r
  refine ⟨_, data_section m online r contact x hc hx, ?_, ?_⟩
  · split
    · exact Or.inl rfl
    · exact Or.inr rfl
  · rw [← hrun]
    constructor
    · intro h
      split at h
      · next hcond =>
        refine ⟨hcond.1, hcond.2.2, ?_⟩
        rcases hnext.1 hcond.2.1 with h1 | h1 | h1
        · exact Or.inl h1
        · omega
        · exact Or.inr h1
      · exact absurd h (by decide)
    · rintro ⟨h1, h2, h3⟩
      have h4 : data.nextUnacknowledged m.messages r = false := by
        rcases h3 with h3 | h3
        · exact hnext.2 (Or.inl h3)
        · exact hnext.2 (Or.inr (Or.inr h3))
      rw [if_pos ⟨h1, h4, h2⟩]

/-- Witness of C13 (amended): the head run of three messages ends before the
received message at row 3, and row 2 is the row labelled `offline`. -/
theorem offline_label_single_row_witness :
    ∃ label,
      data
          { messages := [⟨"d", 4, 4, .Sending⟩, ⟨"c", 3, 3, .Error⟩, ⟨"b", 2, 2, .Sending⟩,
              ⟨"a", 1, 9, .Received⟩],
            lastReceivedId := 9, m_unreadCount := 1, m_contact := some 1 }
          false (some 2) .SectionRole = some (.string label) ∧
      (label = "offline" ∨ label = "") ∧
      (label = "offline" ↔
        (false = false ∧
          2 + 1 = headRun [⟨"d", 4, 4, .Sending⟩, ⟨"c", 3, 3, .Error⟩, ⟨"b", 2, 2, .Sending⟩,
            ⟨"a", 1, 9, .Received⟩])) :=
  offline_label_single_row
    { messages := [⟨"d", 4, 4, .Sending⟩, ⟨"c", 3, 3, .Error⟩, ⟨"b", 2, 2, .Sending⟩,
        ⟨"a", 1, 9, .Received⟩],
      lastReceivedId := 9, m_unreadCount := 1, m_contact := some 1 }
    false 2 1 ⟨"b", 2, 2, .Sending⟩ (by decide) (by decide)

/-! ## Operations and the received messages -/

theorem find?_eq_head?_filter {α : Type} (q : α → Bool) (l : List α) :
    l.find? q = (l.filter q).head? := by
  induction l with
  | nil => rfl
  | cons a l ih =>
    cases h : q a
    · rw [List.find?_cons_of_neg _ (by simp [h]), List.filter_cons_of_neg (by simp [h]), ih]
    · rw [List.find?_cons_of_pos _ h, List.filter_cons_of_pos h]
      rfl

/-- Before the row of the insertion there is no received message. -/
theorem row_before_not_received (messages : List MessageData) (p : Nat) :
    ∀ y ∈ messages.take (receiveMessage.row messages p), y.status ≠ .Received := by
  intro y hy
  by_cases hp : p = 0
  · subst hp
    rw [row_of_zero_prior] at hy
    simp at hy
  · by_cases hex : ∃ i, IsAnchor messages p i
    · classical
      have hfind := Nat.find_spec hex
      have hmin : ∀ j, j < Nat.find hex → ¬ IsAnchor messages p j :=
        fun j hj => Nat.find_min hex hj
      rw [row_of_anchor _ _ _ hp hfind hmin] at hy
      obtain ⟨j, hj⟩ := List.mem_iff_getElem?.1 hy
      rw [List.getElem?_take] at hj
      split at hj
      · next hlt =>
        intro hs
        exact hmin j hlt ⟨lt_trans hlt hfind.1, y, hj, Or.inl hs⟩
      · cases hj
    · rw [row_of_no_anchor _ _ (fun i hi => hex ⟨i, hi⟩)] at hy
      simp at hy

/-- A receive puts the new message in front of the received messages. -/
theorem receivedOf_receiveMessage (m : Store) (data : ChatMessageData) :
    receivedOf (receiveMessage m data) = receivedMessage data :: receivedOf m := by
  have hnil : (m.messages.take (receiveMessage.row m.messages data.priorMessageID)).filter
      (fun x => decide (x.status = .Received)) = [] := by
    rw [List.filter_eq_nil_iff]
    intro y hy
    simpa using row_before_not_received m.messages data.priorMessageID y hy
  have hold : receivedOf m =
      (m.messages.drop (receiveMessage.row m.messages data.priorMessageID)).filter
        (fun x => decide (x.status = .Received)) := by
    conv_lhs =>
      rw [receivedOf,
        ← List.take_append_drop (receiveMessage.row m.messages data.priorMessageID) m.messages,
        List.filter_append, hnil, List.nil_append]
  rw [hold]
  unfold receivedOf
  rw [receiveMessage_messages, List.filter_append, hnil, List.nil_append,
    List.filter_cons_of_pos (by simp [receivedMessage])]

/-- A receive puts `true` at the row of the insertion in the list of directions. -/
theorem directions_receiveMessage (m : Store) (data : ChatMessageData) :
    (receiveMessage m data).messages.map (fun x => decide (x.status = .Received)) =
      QList.insert (m.messages.map (fun x => decide (x.status = .Received)))
        (receiveMessage.row m.messages data.priorMessageID) true := by
  rw [receiveMessage_messages]
  simp [QList.insert, List.map_take, List.map_drop, receivedMessage]

/-- What `messageReply` does to the store: nothing, or it overwrites the status
of one outgoing message with `Delivered` or `Error`. -/
theorem messageReply_shape (m : Store) (command : Option ChatMessageCommand) :
    messageReply m command = m ∨
      ∃ k x st, m.messages[k]? = some x ∧ x.status ≠ .Received ∧ st ≠ .Received ∧
        messageReply m command =
          { m with messages := m.messages.set k { x with status := st } } := by
  cases command with
  | none => exact Or.inl rfl
  | some cmd =>
    rcases messageReply_cases m cmd with ⟨h, _⟩ | ⟨k, x, hk, hx, _, h⟩
    · exact Or.inl h
    · refine Or.inr ⟨k, x, if cmd.isSuccess then .Delivered else .Error, hk, hx.2, ?_, h⟩
      cases cmd.isSuccess <;> simp

theorem filter_received_set (l : List MessageData) (k : Nat) (x : MessageData)
    (st : MessageStatus) (hk : l[k]? = some x) (hx : x.status ≠ .Received)
    (hst : st ≠ .Received) :
    (l.set k { x with status := st }).filter (fun y => decide (y.status = .Received)) =
      l.filter (fun y => decide (y.status = .Received)) := by
  obtain ⟨hl, hset⟩ := set_decompose l k x { x with status := st } hk
  rw [hset]
  conv_rhs => rw [hl]
  simp [List.filter_append, List.filter_cons, hx, hst]

theorem map_received_set (l : List MessageData) (k : Nat) (x : MessageData)
    (st : MessageStatus) (hk : l[k]? = some x) (hx : x.status ≠ .Received)
    (hst : st ≠ .Received) :
    (l.set k { x with status := st }).map (fun y => decide (y.status = .Received)) =
      l.map (fun y => decide (y.status = .Received)) := by
  obtain ⟨hl, hset⟩ := set_decompose l k x { x with status := st } hk
  rw [hset]
  conv_rhs => rw [hl]
  simp [hx, hst]

/-- A `messageReply` keeps the received messages, the direction of every
message, and the two counters. -/
theorem messageReply_keeps (m : Store) (command : Option ChatMessageCommand) :
    receivedOf (messageReply m command) = receivedOf m ∧
      (messageReply m command).messages.map (fun y => decide (y.status = .Received)) =
        m.messages.map (fun y => decide (y.status = .Received)) ∧
      (messageReply m command).lastReceivedId = m.lastReceivedId ∧
      (messageReply m command).m_unreadCount = m.m_unreadCount := by
  rcases messageReply_shape m command with h | ⟨k, x, st, hk, hx, hst, h⟩
  · rw [h]
    exact ⟨rfl, rfl, rfl, rfl⟩
  · rw [h]
    exact ⟨filter_received_set _ k x st hk hx hst, map_received_set _ k x st hk hx hst,
      rfl, rfl⟩

/-- A `sendMessage` that returns keeps the received messages. -/
theorem receivedOf_sendMessage (m : Store) (text : String) (sendTime now : Int) (c : Nat)
    (r : Store × Option SendRequest) (h : sendMessage m text sendTime now c = some r) :
    receivedOf r.1 = receivedOf m := by
  unfold receivedOf
  rw [(sendMessage_result m text sendTime now c r h).1]
  split <;> simp

theorem clear_cases (m : Store) :
    (m.messages = [] ∧ clear m = m) ∨
      (m.messages.isEmpty = false ∧
        clear m = { m with messages := [], m_unreadCount := 0 }) := by
  obtain ⟨messages, last, unread, contact⟩ := m
  cases messages with
  | nil => exact Or.inl ⟨rfl, by simp [clear]⟩
  | cons a l =>
    refine Or.inr ⟨rfl, ?_⟩
    by_cases h0 : unread = 0
    · subst h0
      simp [clear, resetUnreadCount]
    · simp [clear, resetUnreadCount, h0]

theorem setContact_cases (m : Store) (contact : Option Nat) :
    (contact = m.m_contact ∧ setContact m contact = m) ∨
      (contact ≠ m.m_contact ∧
        setContact m contact = { m with messages := [], m_contact := contact }) := by
  by_cases h : contact = m.m_contact
  · exact Or.inl ⟨h, by simp [setContact, h]⟩
  · exact Or.inr ⟨h, by simp [setContact, h]⟩

theorem resetUnreadCount_eq (m : Store) :
    resetUnreadCount m = { m with m_unreadCount := 0 } := by
  unfold resetUnreadCount
  split
  · next h =>
    cases m
    simp_all
  · rfl

/-! ## Invariants along sequences of operations -/

theorem runOps_inv (P : Store → Prop) (Q : Op → Prop)
    (hstep : ∀ m op m2, Q op → P m → applyOp m op = some m2 → P m2) (ops : List Op) :
    ∀ m r, (∀ op ∈ ops, Q op) → P m → runOps m ops = some r → P r := by
  induction ops with
  | nil =>
    intro m r _ hP h
    cases h
    exact hP
  | cons op later ih =>
    intro m r hQ hP h
    simp only [runOps] at h
    cases hop : applyOp m op with
    | none => rw [hop] at h; cases h
    | some m2 =>
      rw [hop] at h
      exact ih m2 r (fun o ho => hQ o (List.mem_cons_of_mem _ ho))
        (hstep m op m2 (hQ op (List.mem_cons_self _ _)) hP hop) h

theorem runTracked_inv {γ : Type} (track : Store → γ → Op → γ) (P : Store → γ → Prop)
    (hstep : ∀ m g op m2, P m g → applyOp m op = some m2 → P m2 (track m g op))
    (ops : List Op) :
    ∀ m g r, P m g → runTracked track m g ops = some r → P r.1 r.2 := by
  induction ops with
  | nil =>
    intro m g r hP h
    cases h
    exact hP
  | cons op later ih =>
    intro m g r hP h
    simp only [runTracked] at h
    cases hop : applyOp m op with
    | none => rw [hop] at h; cases h
    | some m2 =>
      rw [hop] at h
      exact ih m2 _ r (hstep m g op m2 hP hop) h

theorem runTracked_fst {γ : Type} (track : Store → γ → Op → γ) (ops : List Op) :
    ∀ m g, (runTracked track m g ops).map Prod.fst = runOps m ops := by
  induction ops with
  | nil => intro m g; rfl
  | cons op later ih =>
    intro m g
    simp only [runTracked, runOps]
    cases applyOp m op with
    | none => rfl
    | some m2 => exact ih m2 _

theorem applyOp_sendMessage (m m2 : Store) (text : String) (sendTime now : Int) (c : Nat)
    (h : applyOp m (.sendMessage text sendTime now c) = some m2) :
    sendMessage m text sendTime now c ≠ none ∧
      m2.messages = (if text.length = 0 then [] else [⟨text, now, c, .Sending⟩]) ++ m.messages ∧
      m2.m_unreadCount = m.m_unreadCount ∧ m2.lastReceivedId = m.lastReceivedId ∧
      m2.m_contact = m.m_contact ∧ receivedOf m2 = receivedOf m := by
  simp only [applyOp] at h
  cases hs : sendMessage m text sendTime now c with
  | none => rw [hs] at h; cases h
  | some r =>
    rw [hs] at h
    cases h
    obtain ⟨h1, h2, h3, h4⟩ := sendMessage_result m text sendTime now c r hs
    exact ⟨by simp, h1, h2, h3, h4, receivedOf_sendMessage m text sendTime now c r hs⟩

/-- Every operation changes the received messages as the record of arrivals says. -/
theorem applyOp_receivedOf (m m2 : Store) (op : Op) (h : applyOp m op = some m2) :
    receivedOf m2 = trackArrivals m (receivedOf m) op := by
  cases op with
  | setContact contact =>
    cases h
    rcases setContact_cases m contact with ⟨h1, h2⟩ | ⟨h1, h2⟩
    · rw [h2]
      simp [trackArrivals, h1]
    · rw [h2]
      simp [trackArrivals, h1, receivedOf]
  | sendMessage text sendTime now c =>
    exact (applyOp_sendMessage m m2 text sendTime now c h).2.2.2.2.2
  | receiveMessage data =>
    cases h
    exact receivedOf_receiveMessage m data
  | messageReply command =>
    cases h
    exact (messageReply_keeps m command).1
  | clear =>
    cases h
    rcases clear_cases m with ⟨h1, h2⟩ | ⟨h1, h2⟩
    · simp [trackArrivals, h1, h2]
    · simp [trackArrivals, h1, h2, receivedOf]
  | resetUnreadCount =>
    cases h
    rw [resetUnreadCount_eq]
    rfl

/-- Every operation changes the directions of the messages as the record of
origins says. -/
theorem applyOp_directions (m m2 : Store) (op : Op) (h : applyOp m op = some m2) :
    m2.messages.map (fun x => decide (x.status = .Received)) =
      trackOrigins m (m.messages.map (fun x => decide (x.status = .Received))) op := by
  cases op with
  | setContact contact =>
    cases h
    rcases setContact_cases m contact with ⟨h1, h2⟩ | ⟨h1, h2⟩
    · rw [h2]
      simp [trackOrigins, h1]
    · rw [h2]
      simp [trackOrigins, h1]
  | sendMessage text sendTime now c =>
    rw [(applyOp_sendMessage m m2 text sendTime now c h).2.1]
    simp only [trackOrigins]
    split <;> simp
  | receiveMessage data =>
    cases h
    exact directions_receiveMessage m data
  | messageReply command =>
    cases h
    exact (messageReply_keeps m command).2.1
  | clear =>
    cases h
    rcases clear_cases m with ⟨h1, h2⟩ | ⟨h1, h2⟩
    · simp [trackOrigins, h1, h2]
    · simp [trackOrigins, h1, h2]
  | resetUnreadCount =>
    cases h
    rw [resetUnreadCount_eq]
    rfl

/-- C14: along every sequence of operations from the store of the constructor,
the record that notes for each stored message whether `receiveMessage` created
it agrees, position by position, with the statuses: a stored message has status
`Received` if and only if `receiveMessage` created it. No operation turns a
received message into an outgoing one or an outgoing one into a received one. -/
theorem received_iff_created_by_receive (ops : List Op) (m : Store) (origins : List Bool)
    (h : runTracked trackOrigins Store.init [] ops = some (m, origins)) :
    runOps Store.init ops = some m ∧
      origins = m.messages.map (fun x => decide (x.status = .Received)) := by
  constructor
  · rw [← runTracked_fst trackOrigins ops Store.init [], h]
    rfl
  · exact runTracked_inv trackOrigins
      (fun m g => g = m.messages.map (fun x => decide (x.status = .Received)))
      (fun m g op m2 hP hop => by
        show trackOrigins m g op = _
        rw [hP, applyOp_directions m m2 op hop])
      ops Store.init [] (m, origins) rfl h

/-- Witness of C14: a send, a receive and a completion notification leave a
received message at row 0 and an outgoing one at row 1. -/
theorem received_iff_created_by_receive_witness :
    runOps Store.init
        [.setContact (some 1), .sendMessage "a" 1 1 1, .receiveMessage ⟨"b", 2, 9, 0⟩,
          .messageReply (some ⟨1, true⟩)] =
      some { messages := [⟨"b", 2, 9, .Received⟩, ⟨"a", 1, 1, .Delivered⟩],
             lastReceivedId := 9, m_unreadCount := 1, m_contact := some 1 } ∧
    [true, false] =
      ([⟨"b", 2, 9, .Received⟩, ⟨"a", 1, 1, .Delivered⟩] : List MessageData).map
        (fun x => decide (x.status = .Received)) :=
  received_iff_created_by_receive
    [.setContact (some 1), .sendMessage "a" 1 1 1, .receiveMessage ⟨"b", 2, 9, 0⟩,
      .messageReply (some ⟨1, true⟩)]
    { messages := [⟨"b", 2, 9, .Received⟩, ⟨"a", 1, 1, .Delivered⟩],
      lastReceivedId := 9, m_unreadCount := 1, m_contact := some 1 }
    [true, false] (by decide)

/-- C15: `setContact` with the contact already set leaves the state unchanged,
messages included; with another contact the message sequence becomes empty, the
new contact is recorded, and `m_unreadCount` and `lastReceivedId` keep their
values. -/
theorem setContact_resets_messages (m : Store) (newPeer : Option Nat) :
    (newPeer = m.m_contact → setContact m newPeer = m) ∧
    (newPeer ≠ m.m_contact →
      setContact m newPeer =
        { messages := [], lastReceivedId := m.lastReceivedId,
          m_unreadCount := m.m_unreadCount, m_contact := newPeer }) := by
  constructor
  · intro h
    simp [setContact, h]
  · intro h
    simp [setContact, h]

/-- C16: `sendMessage` with the empty text returns the state as it is, message
sequence, `m_unreadCount` and `lastReceivedId` included, and hands nothing to the
transport; this holds with and without a contact. -/
theorem sendMessage_empty_text (m : Store) (sendTime now : Int) (identifier : Nat) :
    sendMessage m "" sendTime now identifier = some (m, none) :=
  rfl

/-- C17: for a valid row `r` with message `x`, the time span of the row is the
time of `x` minus the time of the next-older message at `r + 1`, in
milliseconds, when `r` is not the last row, and `-1` when `r` is the last
(oldest) row. -/
theorem timespan_is_gap_to_older (m : Store) (online : Bool) (r : Nat) (x : MessageData)
    (hx : m.messages[r]? = some x) :
    (∀ older, m.messages[r + 1]? = some older →
        data m online (some r) .TimespanRole = some (.int (x.time - older.time))) ∧
      (r + 1 = m.messages.length →
        data m online (some r) .TimespanRole = some (.int (-1))) := by
  constructor
  · intro older ho
    simp [data, hx, ho]
  · intro hlast
    have hnone : m.messages[r + 1]? = none := List.getElem?_eq_none_iff.2 (by omega)
    simp [data, hx, hnone]

/-- Witness of C17: the newest of two messages is 3 ms after the older one. -/
theorem timespan_is_gap_to_older_witness :
    data
        { messages := [⟨"b", 5, 2, .Sending⟩, ⟨"a", 2, 9, .Received⟩],
          lastReceivedId := 9, m_unreadCount := 1, m_contact := some 1 }
        false (some 0) .TimespanRole = some (.int (5 - 2)) ∧
    data
        { messages := [⟨"b", 5, 2, .Sending⟩, ⟨"a", 2, 9, .Received⟩],
          lastReceivedId := 9, m_unreadCount := 1, m_contact := some 1 }
        false (some 1) .TimespanRole = some (.int (-1)) :=
  ⟨(timespan_is_gap_to_older
      { messages := [⟨"b", 5, 2, .Sending⟩, ⟨"a", 2, 9, .Received⟩],
        lastReceivedId := 9, m_unreadCount := 1, m_contact := some 1 }
      false 0 ⟨"b", 5, 2, .Sending⟩ (by decide)).1 ⟨"a", 2, 9, .Received⟩ (by decide),
   (timespan_is_gap_to_older
      { messages := [⟨"b", 5, 2, .Sending⟩, ⟨"a", 2, 9, .Received⟩],
        lastReceivedId := 9, m_unreadCount := 1, m_contact := some 1 }
      false 1 ⟨"a", 2, 9, .Received⟩ (by decide)).2 (by decide)⟩

/-- C18: after `receiveMessage`, for any `priorMessageID`, the new message is at
the row of the insertion and every message at a smaller index is an outgoing
one, so the new message is in front of every message received before. Hence
along every sequence of operations from the store of the constructor the
received messages of the sequence, read from index 0, are the arrivals since
the last contact change or clear with the latest arrival first. -/
theorem received_in_arrival_order :
    (∀ (m : Store) (data : ChatMessageData),
      (receiveMessage m data).messages[receiveMessage.row m.messages data.priorMessageID]? =
          some (receivedMessage data) ∧
        (∀ y ∈ (receiveMessage m data).messages.take
            (receiveMessage.row m.messages data.priorMessageID), y.status ≠ .Received) ∧
        receivedOf (receiveMessage m data) = receivedMessage data :: receivedOf m) ∧
    (∀ (ops : List Op) (m : Store) (arrivals : List MessageData),
      runTracked trackArrivals Store.init [] ops = some (m, arrivals) →
        runOps Store.init ops = some m ∧ receivedOf m = arrivals) := by
  constructor
  · intro m data
    have hle := row_le_length m.messages data.priorMessageID
    refine ⟨?_, ?_, receivedOf_receiveMessage m data⟩
    · rw [receiveMessage_messages, List.getElem?_append_right (by simp)]
      simp [hle]
    · intro y hy
      rw [receiveMessage_messages, List.take_append_of_le_length (by simp [hle])] at hy
      rw [List.take_take, Nat.min_self] at hy
      exact row_before_not_received m.messages data.priorMessageID y hy
  · intro ops m arrivals h
    constructor
    · rw [← runTracked_fst trackArrivals ops Store.init [], h]
      rfl
    · exact runTracked_inv trackArrivals (fun m g => receivedOf m = g)
        (fun m g op m2 hP hop => by
          show receivedOf m2 = trackArrivals m g op
          rw [applyOp_receivedOf m m2 op hop, hP])
        ops Store.init [] (m, arrivals) rfl h

/-- C19: in every state reached from the store of the constructor by a sequence
of operations, if the sequence holds a received message then `lastReceivedId` is
the identifier of the received message with the smallest index. -/
theorem lastReceivedId_is_newest_received (ops : List Op) (m : Store) (x : MessageData)
    (h : runOps Store.init ops = some m)
    (hx : m.messages.find? (fun y => decide (y.status = .Received)) = some x) :
    m.lastReceivedId = x.identifier := by
  have hinv : ∀ z, (receivedOf m).head? = some z → m.lastReceivedId = z.identifier := by
    refine runOps_inv
      (fun m => ∀ z, (receivedOf m).head? = some z → m.lastReceivedId = z.identifier)
      (fun _ => True) ?_ ops Store.init m (fun _ _ => trivial) ?_ h
    · intro m op m2 _ hP hop z hz
      have hrec := applyOp_receivedOf m m2 op hop
      rw [hrec] at hz
      cases op with
      | setContact contact =>
        cases hop
        rcases setContact_cases m contact with ⟨h1, h2⟩ | ⟨h1, h2⟩
        · rw [h2]
          simp only [trackArrivals, h1, if_true] at hz
          exact hP z hz
        · simp [trackArrivals, h1] at hz
      | sendMessage text sendTime now c =>
        rw [(applyOp_sendMessage m m2 text sendTime now c hop).2.2.2.1]
        exact hP z hz
      | receiveMessage data =>
        cases hop
        simp only [trackArrivals, List.head?_cons, Option.some.injEq] at hz
        subst hz
        rfl
      | messageReply command =>
        cases hop
        rw [(messageReply_keeps m command).2.2.1]
        exact hP z hz
      | clear =>
        cases hop
        rcases clear_cases m with ⟨h1, h2⟩ | ⟨h1, h2⟩
        · rw [h2]
          simp only [trackArrivals, h1, List.isEmpty_nil, if_true] at hz
          exact hP z hz
        · simp [trackArrivals, h1] at hz
      | resetUnreadCount =>
        cases hop
        rw [resetUnreadCount_eq]
        exact hP z hz
    · intro z hz
      simp [receivedOf, Store.init] at hz
  apply hinv
  rw [receivedOf, ← find?_eq_head?_filter]
  exact hx

/-- Witness of C19: after two receives and a send the newest received message
is at row 1 and carries the identifier 8 that `lastReceivedId` holds. -/
theorem lastReceivedId_is_newest_received_witness :
    (8 : Nat) = (⟨"c", 3, 8, .Received⟩ : MessageData).identifier :=
  lastReceivedId_is_newest_received
    [.setContact (some 1), .receiveMessage ⟨"b", 2, 9, 0⟩, .receiveMessage ⟨"c", 3, 8, 9⟩,
      .sendMessage "a" 4 4 1]
    { messages := [⟨"a", 4, 1, .Sending⟩, ⟨"c", 3, 8, .Received⟩, ⟨"b", 2, 9, .Received⟩],
      lastReceivedId := 8, m_unreadCount := 2, m_contact := some 1 }
    ⟨"c", 3, 8, .Received⟩ (by decide) (by decide)

/-- C20: in every state reached by a sequence of `sendMessage`, `receiveMessage`,
`messageReply`, `clear` and `resetUnreadCount` calls, without `setContact`, from
the store of the constructor, with no contact or with a first contact set,
`m_unreadCount` is at most the number of received messages in the sequence, and
it is 0 whenever the sequence is empty. -/
theorem unreadCount_le_received (contact : Option Nat) (ops : List Op) (m : Store)
    (hops : ∀ op ∈ ops, Op.keepsContact op = true)
    (h : runOps (setContact Store.init contact) ops = some m) :
    m.m_unreadCount ≤ m.messages.countP (fun x => decide (x.status = .Received)) ∧
      (m.messages = [] → m.m_unreadCount = 0) := by
  have hinv : m.m_unreadCount ≤ (receivedOf m).length := by
    refine runOps_inv (fun m => m.m_unreadCount ≤ (receivedOf m).length)
      (fun op => Op.keepsContact op = true) ?_ ops (setContact Store.init contact) m hops ?_ h
    · intro m op m2 hQ hP hop
      have hrec := applyOp_receivedOf m m2 op hop
      show m2.m_unreadCount ≤ (receivedOf m2).length
      rw [hrec]
      cases op with
      | setContact contact => simp [Op.keepsContact] at hQ
      | sendMessage text sendTime now c =>
        rw [(applyOp_sendMessage m m2 text sendTime now c hop).2.2.1]
        exact hP
      | receiveMessage data =>
        cases hop
        simp only [trackArrivals, List.length_cons]
        exact Nat.succ_le_succ hP
      | messageReply command =>
        cases hop
        rw [(messageReply_keeps m command).2.2.2]
        exact hP
      | clear =>
        cases hop
        rcases clear_cases m with ⟨h1, h2⟩ | ⟨h1, h2⟩
        · rw [h2]
          simp only [trackArrivals, h1, List.isEmpty_nil, if_true]
          exact hP
        · rw [h2]
          simp
      | resetUnreadCount =>
        cases hop
        rw [resetUnreadCount_eq]
        simp
    · rcases setContact_cases Store.init contact with ⟨_, h2⟩ | ⟨_, h2⟩ <;> rw [h2] <;>
        simp [Store.init]
  constructor
  · rw [List.countP_eq_length_filter]
    exact hinv
  · intro he
    have : (receivedOf m).length = 0 := by simp [receivedOf, he]
    omega

/-- Witness of C20: after a send, two receives, a reset and a third receive one
message is unread and three received messages are stored. -/
theorem unreadCount_le_received_witness :
    (1 : Nat) ≤
        ([⟨"e", 5, 7, .Received⟩, ⟨"c", 3, 8, .Received⟩, ⟨"b", 2, 9, .Received⟩,
          ⟨"a", 1, 1, .Sending⟩] : List MessageData).countP
          (fun x => decide (x.status = .Received)) ∧
      (([⟨"e", 5, 7, .Received⟩, ⟨"c", 3, 8, .Received⟩, ⟨"b", 2, 9, .Received⟩,
          ⟨"a", 1, 1, .Sending⟩] : List MessageData) = [] → (1 : Nat) = 0) :=
  unreadCount_le_received (some 1)
    [.sendMessage "a" 1 1 1, .receiveMessage ⟨"b", 2, 9, 0⟩, .receiveMessage ⟨"c", 3, 8, 9⟩,
      .resetUnreadCount, .receiveMessage ⟨"e", 5, 7, 0⟩]
    { messages := [⟨"e", 5, 7, .Received⟩, ⟨"c", 3, 8, .Received⟩, ⟨"b", 2, 9, .Received⟩,
        ⟨"a", 1, 1, .Sending⟩],
      lastReceivedId := 7, m_unreadCount := 1, m_contact := some 1 }
    (by decide) (by decide)

end ConversationModel
